import Mathlib

/-!
# overrustlelogs: the Twitch logger (`logger/twitch.go`)

A shallow embedding of `TwitchLogger` and of its operations `join`, `leave`,
`Start`, `runCommand`, `msgHandler`, `addChannel`, `removeChannel`,
`saveChannels`, `channelExists` and `inSlice`, followed by theorems about them.

Go strings are Lean strings, Go slices are lists, the map `chats` is an
association list, `nil` errors are `none`.  Everything outside the file
(the chat connection, the HTTP request, the file system) is an oracle of
`Env`, indexed by the number of calls made so far, so that every sequence of
answers of the outside world is some `Env`.
-/

namespace Overrustle

/-! ## Strings -/

/-- The function `strings.ToLower` of the Go standard library, on ASCII letters. -/
def ToLower (s : String) : String := String.mk (s.data.map Char.toLower)

/-- Splitting of a character sequence at every blank; the result is never empty. -/
def splitBlank : List Char → List (List Char)
  | [] => [[]]
  | c :: cs =>
    if c = ' ' then [] :: splitBlank cs
    else
      match splitBlank cs with
      | [] => [[c]]
      | w :: ws => (c :: w) :: ws

/-- The call `strings.Split(s, " ")`. -/
def Split (s : String) : List String := (splitBlank s.data).map String.mk

/-- The call `sort.Strings`: the increasing rearrangement of the slice, strings
being compared character by character. -/
def sortStrings (l : List String) : List String :=
  l.insertionSort (fun a b => a.data ≤ b.data)

/-! ## Data model -/

/-- The error values of `twitch.go`; `external` is an error handed back by a
collaborator (the chat connection or the operating system). -/
inductive Err where
  | errNotInChannel
  | errAlreadyInChannel
  | errChannelNotValid
  | failedToJoin (ch : String)
  | didntFind (ch : String)
  | chatExists (id : Nat)
  | external (msg : String)
  deriving DecidableEq, Repr

/-- Modelled from the spec: the connection handle `chat.Twitch`, whose source is
not part of `logger/twitch.go`.  It holds the channels currently joined on the
connection, a set kept as a list without repetition, which is what
`Channels()` returns. -/
structure Twitch where
  channels : List String
  deriving DecidableEq, Repr

/-- The fields of `common.Message` that `twitch.go` reads. -/
structure Message where
  Nick : String
  Channel : String
  Command : String
  Data : String
  deriving DecidableEq, Repr

/-- A Go channel of messages, seen as a bounded queue: its capacity, the
messages waiting in it, oldest first, and every message it ever accepted. -/
structure Chan where
  cap : Nat
  buf : List Message
  received : List Message
  deriving DecidableEq, Repr

/-- The state of a `TwitchLogger`.  The fields `chats`, `admins`, `channels`,
`listeners` and `commandChannel` are those of the Go struct (the locks and the
`logHandler` callback are left out).  The remaining fields record what
the logger did to the outside world: the roster file at `ChannelListPath`, the
`Join` and `Leave` calls made on connections (handle id, channel, success), the
channels whose existence was requested, the `os.Create` calls, the handles
started (with the pool as it was just before) and the chat messages sent
(handle id, channel, text). -/
structure TwitchLogger where
  chats : List (Nat × Twitch)
  admins : List String
  channels : List String
  listeners : List Chan
  commandChannel : String
  file : List String
  joinLog : List (Nat × String × Bool)
  leaveLog : List (Nat × String × Bool)
  existsLog : List String
  createLog : List Bool
  started : List (Nat × List (Nat × Twitch))
  sent : List (Nat × String × String)
  deriving DecidableEq, Repr

/-- What lies outside `twitch.go`.  `MaxChannelsPerChat` is the constant of
package `common`.  `joinErr k` is the error of the `k`-th `Join` call made on
any connection (`none` when it succeeds), `leaveErr k` that of the `k`-th
`Leave` call, `createErr k` that of the `k`-th `os.Create`; `urlOk ch` tells
whether `url.Parse` accepts the endpoint built from `ch`; `httpStatus k` is the
status code answered to the `k`-th request, `none` when the transport fails;
`writeErr k` is the error of the `f.Write` that follows the `k`-th `os.Create`.
`fold s` is `s` with case folded, in the sense of the simple case folding of
Unicode: `strings.EqualFold(s, t)` holds exactly when `fold s = fold t`. -/
structure Env where
  MaxChannelsPerChat : Nat
  joinErr : Nat → Option String
  leaveErr : Nat → Option String
  createErr : Nat → Option String
  writeErr : Nat → Option String
  urlOk : String → Bool
  httpStatus : Nat → Option Nat
  fold : String → String

/-- The function `strings.EqualFold` of the Go standard library: equality of the
two strings once case is folded, `e.fold` giving the folded form. -/
def EqualFold (e : Env) (s t : String) : Bool := e.fold s == e.fold t

/-- How a call ends: it returns a value, it panics, or the model ran out of
fuel. -/
inductive Outcome (α : Type) where
  | ret (v : α) (t : TwitchLogger)
  | panic (t : TwitchLogger)
  | timeout
  deriving DecidableEq, Repr

/-- The logger state in which a call ended, when it ended. -/
def Outcome.state? {α : Type} : Outcome α → Option TwitchLogger
  | .ret _ t => some t
  | .panic t => some t
  | .timeout => none

/-! ## The collaborators -/

/-- Replaces the handle stored under `id` by `f` of it. -/
def updateChat (id : Nat) (f : Twitch → Twitch) : List (Nat × Twitch) → List (Nat × Twitch)
  | [] => []
  | (k, c) :: rest => (if k = id then (k, f c) else (k, c)) :: updateChat id f rest

/-- Modelled from the spec: the handle holds the set of the channels joined on
it.  Adding a channel that is in the set leaves the set as it is. -/
def Twitch.add (ch : String) (c : Twitch) : Twitch :=
  if ch ∈ c.channels then c else { c with channels := c.channels ++ [ch] }

/-- Modelled from the spec: the method `Join` of `chat.Twitch`, on the handle
stored under `id`.  The outside world decides whether the call fails; a call
that succeeds adds the channel to the set of channels joined on the handle. -/
def Twitch.Join (e : Env) (id : Nat) (ch : String) (t : TwitchLogger) :
    Option String × TwitchLogger :=
  match e.joinErr t.joinLog.length with
  | some msg => (some msg, { t with joinLog := t.joinLog ++ [(id, ch, false)] })
  | none =>
    (none, { t with
      chats := updateChat id (Twitch.add ch) t.chats
      joinLog := t.joinLog ++ [(id, ch, true)] })

/-- Modelled from the spec: the method `Leave` of `chat.Twitch`, on the handle
stored under `id`.  The outside world decides whether the call fails; a call
that succeeds takes the channel out of the channels joined on the handle. -/
def Twitch.Leave (e : Env) (id : Nat) (ch : String) (t : TwitchLogger) :
    Option String × TwitchLogger :=
  match e.leaveErr t.leaveLog.length with
  | some msg => (some msg, { t with leaveLog := t.leaveLog ++ [(id, ch, false)] })
  | none =>
    (none, { t with
      chats := updateChat id (fun c => { c with channels := c.channels.erase ch }) t.chats
      leaveLog := t.leaveLog ++ [(id, ch, true)] })

/-- Modelled from the spec: the method `Message` of `chat.Twitch`, called on
the handle `c`, which is the one stored under the given id, or nil; calling it
on the nil handle panics. -/
def Twitch.Message (c : Option Nat) (channel text : String) (t : TwitchLogger) : Outcome Unit :=
  match c with
  | none => .panic t
  | some chatID => .ret () { t with sent := t.sent ++ [(chatID, channel, text)] }

/-! ## The functions of `twitch.go` -/

/-- The function `inSlice`. -/
def inSlice (e : Env) : List String → String → Bool
  | [], _ => false
  | sv :: s, v => if EqualFold e v sv then true else inSlice e s v

/-- The function `channelExists`: `log.Panicf` when the url does not parse, a
nil dereference of `res` when the request fails, else `StatusCode == 200`. -/
def channelExists (e : Env) (ch : String) (t : TwitchLogger) : Outcome Bool :=
  if e.urlOk ch then
    match e.httpStatus t.existsLog.length with
    | none => .panic { t with existsLog := t.existsLog ++ [ch] }
    | some code => .ret (code == 200) { t with existsLog := t.existsLog ++ [ch] }
  else .panic t

/-- The method `addChannel`. -/
def addChannel (ch : String) (t : TwitchLogger) : TwitchLogger :=
  { t with channels := t.channels ++ [ch] }

/-- The loop of `removeChannel`: the slice without its first entry equal to `ch`
up to case, when there is one. -/
def removeFirst (e : Env) : List String → String → Option (List String)
  | [], _ => none
  | channel :: rest, ch =>
    if EqualFold e channel ch then some rest
    else (removeFirst e rest ch).map (channel :: ·)

/-- The method `removeChannel`. -/
def removeChannel (e : Env) (ch : String) (t : TwitchLogger) : Option Err × TwitchLogger :=
  match removeFirst e t.channels ch with
  | some rest => (none, { t with channels := rest })
  | none => (some (.didntFind ch), t)

/-- The method `saveChannels`: when `os.Create` fails nothing else happens;
otherwise the file is emptied, the roster is sorted in place and written to
the file.  The result of `f.Write` is not looked at: when the write fails
the file holds no roster and `saveChannels` still returns nil. -/
def saveChannels (e : Env) (t : TwitchLogger) : Option Err × TwitchLogger :=
  match e.createErr t.createLog.length with
  | some msg => (some (.external msg), { t with createLog := t.createLog ++ [false] })
  | none =>
    (none, { t with
      channels := sortStrings t.channels
      file :=
        match e.writeErr t.createLog.length with
        | none => sortStrings t.channels
        | some _ => []
      createLog := t.createLog ++ [true] })

/-- The method `startNewChat`: a fresh connection, with no channel joined, is
stored under `id`, unless the id is taken. -/
def startNewChat (id : Nat) (t : TwitchLogger) : Option Err × TwitchLogger :=
  match t.chats.lookup id with
  | some _ => (some (.chatExists id), t)
  | none =>
    (none, { t with
      chats := t.chats ++ [(id, { channels := [] })]
      started := t.started ++ [(id, t.chats)] })

/-- The result of the scan of the handles in `join`. -/
inductive Pick where
  | found (i : Nat)
  | nilChat
  | notFound
  deriving DecidableEq, Repr

/-- The loop `for i := 1; i <= len(t.chats); i++` of `join`, with `n` rounds
left: the first `i` whose handle has fewer than `MaxChannelsPerChat` channels.
An id missing from the map yields a nil handle, whose `Channels()` panics. -/
def joinPick (max : Nat) (chats : List (Nat × Twitch)) : Nat → Nat → Pick
  | 0, _ => .notFound
  | n + 1, i =>
    match chats.lookup i with
    | none => .nilChat
    | some c => if c.channels.length < max then .found i else joinPick max chats n (i + 1)

/-- One `c.Join(ch)` of `join`, where `c` is the handle stored under the given
id, or nil. -/
def callJoin (e : Env) (c : Option Nat) (ch : String) (t : TwitchLogger) :
    Outcome (Option String) :=
  match c with
  | none => .panic t
  | some id => .ret (Twitch.Join e id ch t).1 (Twitch.Join e id ch t).2

/-- The block of `join` under the label `again`, entered with the given value
of `retrys`; each jump back to the label costs one unit of fuel. -/
def joinAgain (e : Env) (ch : String) (c : Option Nat) :
    Nat → Nat → TwitchLogger → Outcome (Option Err)
  | 0, _, _ => .timeout
  | fuel + 1, retrys, t =>
    match callJoin e c ch t with
    | .timeout => .timeout
    | .panic t1 => .panic t1
    | .ret none t1 => .ret none t1
    | .ret (some _) t1 =>
      if retrys = 3 then .ret (some (.failedToJoin ch)) t1
      else
        match callJoin e c ch t1 with
        | .timeout => .timeout
        | .panic t2 => .panic t2
        | .ret none t2 => .ret none t2
        | .ret (some _) t2 => joinAgain e ch c fuel (retrys + 1) t2

/-- The part of `join` from the scan of the handles on. -/
def joinCore (e : Env) (fuel : Nat) (ch : String) (init : Bool) (t : TwitchLogger) :
    Outcome (Option Err) :=
  match joinPick e.MaxChannelsPerChat t.chats t.chats.length 1 with
  | .nilChat => .panic t
  | pick =>
    let ct : Option Nat × TwitchLogger :=
      match pick with
      | .found i => (some i, t)
      | _ =>
        match startNewChat (t.chats.length + 1) t with
        | (none, t1) => (some (t.chats.length + 1), t1)
        | (some _, t1) => (none, t1)
    match joinAgain e ch ct.1 fuel 0 ct.2 with
    | .ret none t3 =>
      if init then .ret none (saveChannels e (addChannel ch t3)).2
      else .ret none t3
    | other => other

/-- The method `join`. -/
def join (e : Env) (fuel : Nat) (ch : String) (init : Bool) (t : TwitchLogger) :
    Outcome (Option Err) :=
  if inSlice e t.channels ch && init then .ret (some .errAlreadyInChannel) t
  else if init then
    match channelExists e ch t with
    | .timeout => .timeout
    | .panic t1 => .panic t1
    | .ret false t1 => .ret (some .errChannelNotValid) t1
    | .ret true t1 => joinCore e fuel ch init t1
  else joinCore e fuel ch init t

/-- The loop `for i, c := range t.chats` of `leave`; `order` lists the keys in
the order in which the map happens to be ranged over, `err` is the variable of
that name. -/
def leaveLoop (e : Env) (ch : String) :
    List Nat → Option Err → TwitchLogger → Option Err × TwitchLogger
  | [], err, t => (err, t)
  | i :: rest, err, t =>
    match t.chats.lookup i with
    | none => leaveLoop e ch rest err t
    | some _ =>
      match Twitch.Leave e i ch t with
      | (none, t1) => (none, t1)
      | (some msg, t1) => leaveLoop e ch rest (some (.external msg)) t1

/-- The method `leave`. -/
def leave (e : Env) (order : List Nat) (ch : String) (t : TwitchLogger) :
    Option Err × TwitchLogger :=
  if !inSlice e t.channels ch then (some .errNotInChannel, t)
  else
    let r := leaveLoop e ch order none t
    let t2 := if r.1 = none then (removeChannel e ch r.2).2 else r.2
    (r.1, (saveChannels e t2).2)

/-- The body of `Start`, run over the channels still to be joined, with the
local variables `count` and `chatID`. -/
def startLoop (e : Env) (fuel : Nat) :
    List String → Nat → Nat → TwitchLogger → Outcome Unit
  | [], _, _, t => .ret () t
  | channel :: rest, count, chatID, t =>
    let chatID1 := if count = e.MaxChannelsPerChat then chatID + 1 else chatID
    let count1 := if count = e.MaxChannelsPerChat then 0 else count
    let t1 := if (t.chats.lookup chatID1).isNone then (startNewChat chatID1 t).2 else t
    match join e fuel channel false t1 with
    | .timeout => .timeout
    | .panic t2 => .panic t2
    | .ret (some _) t2 => startLoop e fuel rest count1 chatID1 t2
    | .ret none t2 => startLoop e fuel rest (count1 + 1) chatID1 t2

/-- The method `Start`. -/
def Start (e : Env) (fuel : Nat) (t : TwitchLogger) : Outcome Unit :=
  startLoop e fuel t.channels 0 1 t

/-- The function `NewTwitchLogger`, given the configured admins and control
channel and the channels read from the roster file. -/
def NewTwitchLogger (admins : List String) (commandChannel : String) (file : List String) :
    TwitchLogger :=
  { chats := []
    admins := admins
    channels := sortStrings file
    listeners := []
    commandChannel := commandChannel
    file := file
    joinLog := []
    leaveLog := []
    existsLog := []
    createLog := []
    started := []
    sent := [] }

/-- The method `runCommand`; indexing `ld` out of range panics. -/
def runCommand (e : Env) (fuel : Nat) (order : List Nat) (chatID : Nat) (m : Message)
    (t : TwitchLogger) : Outcome Unit :=
  let c : Option Nat := (t.chats.lookup chatID).map (fun _ => chatID)
  if !t.admins.contains m.Nick && m.Command != "MSG" then .ret () t
  else
    let ld := Split (ToLower m.Data)
    match ld.get? 0 with
    | none => .panic t
    | some verb =>
      if verb = "!join" then
        match ld.get? 1 with
        | none => .panic t
        | some arg =>
          match join e fuel arg true t with
          | .timeout => .timeout
          | .panic t1 => .panic t1
          | .ret none t1 => Twitch.Message c m.Channel ("Logging " ++ arg) t1
          | .ret (some .errChannelNotValid) t1 =>
            Twitch.Message c m.Channel "Channel doesn't exist!" t1
          | .ret (some .errAlreadyInChannel) t1 =>
            Twitch.Message c m.Channel ("Already logging " ++ arg) t1
          | .ret (some _) t1 => .ret () t1
      else if verb = "!leave" then
        match ld.get? 1 with
        | none => .panic t
        | some arg =>
          match leave e order arg t with
          | (some _, t1) => Twitch.Message c m.Channel ("Not logging " ++ arg) t1
          | (none, t1) => Twitch.Message c m.Channel ("Leaving " ++ arg) t1
      else .ret () t

/-- The statement `select { case q <- m: default: }`: the message enters the
queue when there is room, and is dropped otherwise. -/
def trySend (q : Chan) (m : Message) : Chan :=
  if q.buf.length < q.cap then
    { q with buf := q.buf ++ [m], received := q.received ++ [m] }
  else q

/-- The loop `for _, l := range t.listeners` of `msgHandler`. -/
def sendAll (m : Message) : List Chan → List Chan
  | [] => []
  | l :: ls => trySend l m :: sendAll m ls

/-- The state of one `msgHandler` goroutine: the logger, the queue `logCh` handed
to the logging sink, and the messages for which `go t.runCommand` was issued. -/
structure Routing where
  t : TwitchLogger
  logCh : Chan
  commands : List Message
  deriving DecidableEq, Repr

/-- One round of the loop of `msgHandler`, for the inbound message `m`. -/
def msgHandlerStep (m : Message) (r : Routing) : Routing :=
  { t := { r.t with listeners := sendAll m r.t.listeners }
    logCh := trySend r.logCh m
    commands := if r.t.commandChannel = m.Channel then r.commands ++ [m] else r.commands }

/-- A consumer receives from the queue: the oldest message leaves it. -/
def Chan.take (q : Chan) : Chan := { q with buf := q.buf.tail }

/-- The consumer of the listener of rank `i` receives from it. -/
def takeAt : Nat → List Chan → List Chan
  | _, [] => []
  | 0, q :: qs => q.take :: qs
  | i + 1, q :: qs => q :: takeAt i qs

/-- What happens around one `msgHandler`: the connection produces a message,
the logging sink receives from its queue, or the consumer of a listener
receives from it. -/
inductive Event where
  | inbound (m : Message)
  | sinkTakes
  | listenerTakes (i : Nat)
  deriving DecidableEq, Repr

/-- The messages produced by the connection, in order. -/
def inbounds : List Event → List Message
  | [] => []
  | .inbound m :: evs => m :: inbounds evs
  | _ :: evs => inbounds evs

/-- The method `msgHandler` along a sequence of events, until the inbound
channel is closed. -/
def msgHandler : List Event → Routing → Routing
  | [], r => r
  | .inbound m :: evs, r => msgHandler evs (msgHandlerStep m r)
  | .sinkTakes :: evs, r => msgHandler evs { r with logCh := r.logCh.take }
  | .listenerTakes i :: evs, r =>
    msgHandler evs { r with t := { r.t with listeners := takeAt i r.t.listeners } }

/-! ## Auxiliary notions used in the statements -/

/-- The first `n` calls `c.Join(ch)` on the handle stored under `id`, stopping
at the first that succeeds; the boolean tells whether one did. -/
def attempts (e : Env) (id : Nat) (ch : String) : Nat → TwitchLogger → Bool × TwitchLogger
  | 0, t => (false, t)
  | n + 1, t =>
    match Twitch.Join e id ch t with
    | (none, t1) => (true, t1)
    | (some _, t1) => attempts e id ch n t1

/-- What `join` does once the calls to `Join` are over. -/
def joinTail (e : Env) (ch : String) (init : Bool) (r : Bool × TwitchLogger) :
    Outcome (Option Err) :=
  if r.1 then
    if init then .ret none (saveChannels e (addChannel ch r.2)).2 else .ret none r.2
  else .ret (some (.failedToJoin ch)) r.2

/-- Everything but the pool and the log of `Join` calls is the same in the
two states. -/
structure JoinFrame (t t1 : TwitchLogger) : Prop where
  channels : t1.channels = t.channels
  admins : t1.admins = t.admins
  commandChannel : t1.commandChannel = t.commandChannel
  file : t1.file = t.file
  leaveLog : t1.leaveLog = t.leaveLog
  existsLog : t1.existsLog = t.existsLog
  createLog : t1.createLog = t.createLog
  started : t1.started = t.started
  sent : t1.sent = t.sent

/-- The log entries of `m` successive `Join` calls for `ch` on the handle
stored under `id`, the first of which is the call number `base`. -/
def joinCalls (e : Env) (id : Nat) (ch : String) (base m : Nat) : List (Nat × String × Bool) :=
  (List.range m).map (fun k => (id, ch, (e.joinErr (base + k)).isNone))

/-- The ids of the pool are 1, 2, ..., n, in this order. -/
def PoolOK (chats : List (Nat × Twitch)) : Prop :=
  chats.map Prod.fst = List.range' 1 chats.length

instance (chats : List (Nat × Twitch)) : Decidable (PoolOK chats) := by
  unfold PoolOK; infer_instance

/-- The handle that `join` acquires in state `t`, with the state it leaves:
either the handle of lowest id among those holding fewer than `max`
channels, or, when every handle holds at least `max` channels, a handle
started under the next id. -/
inductive Acquired (max : Nat) (t : TwitchLogger) : Nat → TwitchLogger → Prop where
  | existing (i : Nat) (c : Twitch) (hc : t.chats.lookup i = some c)
      (hroom : c.channels.length < max)
      (hlow : ∀ p ∈ t.chats, p.1 < i → max ≤ p.2.channels.length) :
      Acquired max t i t
  | fresh (hfull : ∀ p ∈ t.chats, max ≤ p.2.channels.length) :
      Acquired max t (t.chats.length + 1)
        { t with
          chats := t.chats ++ [(t.chats.length + 1, { channels := [] })]
          started := t.started ++ [(t.chats.length + 1, t.chats)] }

/-- The state `t0` is `t`, or `t` after one request about the existence of
`ch`. -/
def Checked (ch : String) (t t0 : TwitchLogger) : Prop :=
  t0 = t ∨ t0 = { t with existsLog := t.existsLog ++ [ch] }

/-- No two entries of the roster are equal up to case. -/
def NoDupFold (e : Env) (l : List String) : Prop :=
  l.Pairwise (fun a b => EqualFold e a b = false)

instance (e : Env) (l : List String) : Decidable (NoDupFold e l) := by
  unfold NoDupFold; infer_instance

/-- The pool invariant: the ids are contiguous from 1, no handle holds more
than `max` channels, and the handles of the pool are the handles that were
started. -/
def PoolInv (max : Nat) (t : TwitchLogger) : Prop :=
  PoolOK t.chats ∧
  (∀ p ∈ t.chats, p.2.channels.length ≤ max) ∧
  t.started.map Prod.fst = t.chats.map Prod.fst

/-- Every handle was started while all the handles of the pool held exactly
`max` channels. -/
def StartedFull (max : Nat) (t : TwitchLogger) : Prop :=
  ∀ s ∈ t.started, ∀ p ∈ s.2, p.2.channels.length = max

/-- The shard fill invariant: the pool invariant, and every handle was started
while all the others were full. -/
def ShardInv (max : Nat) (t : TwitchLogger) : Prop :=
  PoolInv max t ∧ StartedFull max t

/-- The invariant of the loop of `Start` on a roster without repetition, between
two rounds, `seen` being the channels dealt with so far: besides the shard fill
invariant, the handles hold channels of `seen` only, and either nothing was
started yet, or the handle `chatID` is the last one, it holds `count`
channels, and the handles before it are full. -/
def StartInv (max : Nat) (seen : List String) (count chatID : Nat) (t : TwitchLogger) : Prop :=
  ShardInv max t ∧ count ≤ max ∧
  (∀ p ∈ t.chats, ∀ x ∈ p.2.channels, x ∈ seen) ∧
  ((t.chats = [] ∧ chatID = 1 ∧ count = 0) ∨
    (t.chats.length = chatID ∧
      (∀ p ∈ t.chats, p.1 < chatID → p.2.channels.length = max) ∧
      ∃ c, t.chats.lookup chatID = some c ∧ c.channels.length = count))

/-- In the middle of a round of `Start` on a roster without repetition, once the
handle `chatID` is there: it is the last one, it holds `count` channels, fewer
than `max`, and the handles before it are full. -/
def RoundInv (max : Nat) (seen : List String) (count chatID : Nat) (t : TwitchLogger) : Prop :=
  ShardInv max t ∧ count < max ∧
    (∀ p ∈ t.chats, ∀ x ∈ p.2.channels, x ∈ seen) ∧
    t.chats.length = chatID ∧
    (∀ p ∈ t.chats, p.1 < chatID → p.2.channels.length = max) ∧
    ∃ c, t.chats.lookup chatID = some c ∧ c.channels.length = count

/-- The invariant of the loop of `Start` on any roster, between two rounds: the
pool invariant, and either nothing was started yet or the handle `chatID` is
one of the pool. -/
def LooseInv (max count chatID : Nat) (t : TwitchLogger) : Prop :=
  PoolInv max t ∧
  ((t.chats = [] ∧ chatID = 1 ∧ count = 0) ∨ (1 ≤ chatID ∧ chatID ≤ t.chats.length))

/-- The states reached by `Start` on the logger freshly built from the roster
`file`, followed by calls to `join` made one after the other, the capacity of
a connection being `max`. -/
inductive Reachable (max : Nat) (file : List String) : TwitchLogger → Prop where
  | start (e : Env) (fuel : Nat) (admins : List String) (commandChannel : String)
      (t : TwitchLogger) (hmax : e.MaxChannelsPerChat = max) (hfuel : 4 ≤ fuel)
      (h : Start e fuel (NewTwitchLogger admins commandChannel file) = .ret () t) :
      Reachable max file t
  | join (e : Env) (fuel : Nat) (ch : String) (init : Bool) (t t2 : TwitchLogger)
      (err : Option Err) (hmax : e.MaxChannelsPerChat = max) (hfuel : 4 ≤ fuel)
      (hr : Reachable max file t) (h : join e fuel ch init t = .ret err t2) :
      Reachable max file t2

/-- What reaches one bounded queue: a message is offered to it, or its consumer
receives from it. -/
inductive QEvent where
  | offer (m : Message)
  | take
  deriving DecidableEq, Repr

/-- The behaviour the spec asks of a bounded queue with a send that does not
block: an offered message is put at the end when there is room and is dropped
when the queue is full; a consumer takes the oldest message. -/
def boundedQueue : List QEvent → Chan → Chan
  | [], q => q
  | .offer m :: es, q =>
    boundedQueue es
      (if q.buf.length < q.cap then
        { q with buf := q.buf ++ [m], received := q.received ++ [m] }
      else q)
  | .take :: es, q => boundedQueue es { q with buf := q.buf.tail }

/-- The events that concern the logging sink: every inbound message is offered
to it, and its own consumer takes from it. -/
def sinkEvents : List Event → List QEvent
  | [] => []
  | .inbound m :: evs => .offer m :: sinkEvents evs
  | .sinkTakes :: evs => .take :: sinkEvents evs
  | .listenerTakes _ :: evs => sinkEvents evs

/-- The events that concern the listener of rank `i`: every inbound message is
offered to it, and its own consumer takes from it. -/
def listenerEvents (i : Nat) : List Event → List QEvent
  | [] => []
  | .inbound m :: evs => .offer m :: listenerEvents i evs
  | .sinkTakes :: evs => listenerEvents i evs
  | .listenerTakes j :: evs =>
    if j = i then .take :: listenerEvents i evs else listenerEvents i evs

/-- The messages offered to a queue, in order. -/
def offered : List QEvent → List Message
  | [] => []
  | .offer m :: es => m :: offered es
  | .take :: es => offered es

/-! ## Sample worlds and states -/

/-- An outside world in which every call succeeds and every channel exists.
Case is folded on the ASCII letters, which is how `strings.EqualFold` compares
two names made of ASCII characters; the sample names are such names. -/
def envOk (max : Nat) : Env :=
  { MaxChannelsPerChat := max
    joinErr := fun _ => none
    leaveErr := fun _ => none
    createErr := fun _ => none
    writeErr := fun _ => none
    urlOk := fun _ => true
    httpStatus := fun _ => some 200
    fold := ToLower }

/-- An outside world whose connections refuse every `Join` and every `Leave`. -/
def envRefuse (max : Nat) : Env :=
  { MaxChannelsPerChat := max
    joinErr := fun _ => some "refused"
    leaveErr := fun _ => some "refused"
    createErr := fun _ => none
    writeErr := fun _ => none
    urlOk := fun _ => true
    httpStatus := fun _ => some 200
    fold := ToLower }

/-- An outside world whose connections refuse the first two `Join` calls and
accept the following ones. -/
def envThird (max : Nat) : Env :=
  { MaxChannelsPerChat := max
    joinErr := fun k => if k < 2 then some "refused" else none
    leaveErr := fun _ => none
    createErr := fun _ => none
    writeErr := fun _ => none
    urlOk := fun _ => true
    httpStatus := fun _ => some 200
    fold := ToLower }

/-- The logger built from a roster file holding `foo` and `bar`, with one admin
and the control channel `ctl`. -/
def loggerFooBar : TwitchLogger := NewTwitchLogger ["admin"] "ctl" ["foo", "bar"]

/-- The logger `loggerFooBar` once `Start` has run with capacity 2 and every
call succeeding. -/
def startedFooBar : TwitchLogger :=
  match Start (envOk 2) 4 loggerFooBar with
  | .ret _ t => t
  | _ => loggerFooBar

/-- An outside world in which the third and the fourth `Join` calls are refused
and every other call succeeds. -/
def envLate (max : Nat) : Env :=
  { envOk max with joinErr := fun k => if 2 ≤ k ∧ k < 4 then some "refused" else none }

/-- An outside world in which `os.Create` fails and every other call succeeds. -/
def envNoCreate (max : Nat) : Env :=
  { envOk max with createErr := fun _ => some "read-only file system" }

/-- The logger built from a roster file in which `a` comes twice, once
`Start` has run with capacity 2 and every call succeeding. -/
def startedDup : TwitchLogger :=
  match Start (envOk 2) 4 (NewTwitchLogger ["admin"] "ctl" ["a", "a", "b"]) with
  | .ret _ t => t
  | _ => loggerFooBar


/-- An outside world in which the write to the roster file fails and every
other call succeeds. -/
def envNoWrite (max : Nat) : Env :=
  { envOk max with writeErr := fun _ => some "no space left on device" }

/-- The logger `startedFooBar` once `join("baz", true)` has run on it with
capacity 2 and every call succeeding. -/
def joinedBaz : TwitchLogger :=
  match join (envOk 2) 4 "baz" true startedFooBar with
  | .ret _ t => t
  | _ => startedFooBar

/-- An ordinary chat message on the channel `foo`. -/
def msgChat : Message := ⟨"someone", "foo", "PRIVMSG", "hello"⟩

/-- A message on the control channel `ctl`. -/
def msgControl : Message := ⟨"admin", "ctl", "PRIVMSG", "!join baz"⟩

/-- A router on the started logger with an empty sink queue of capacity 2, a
first listener of capacity 1 that is full, and a second listener of
capacity 2 that is empty. -/
def routingSample : Routing :=
  { t := { startedFooBar with
      listeners := [⟨1, [msgControl], [msgControl]⟩, ⟨2, [], []⟩] }
    logCh := ⟨2, [], []⟩
    commands := [] }

/-- A run: two messages come in, the consumer of the first listener receives,
and a third message comes in. -/
def eventsSample : List Event :=
  [.inbound msgChat, .inbound msgControl, .listenerTakes 0, .inbound msgChat]

/-! ## The pool as an association list -/

theorem lookup_mem {l : List (Nat × Twitch)} {i : Nat} {c : Twitch}
    (h : l.lookup i = some c) : (i, c) ∈ l := by
  induction l with
  | nil => simp at h
  | cons p l ih =>
    obtain ⟨k, d⟩ := p
    rw [List.lookup_cons] at h
    by_cases hk : i = k
    · subst hk
      simp at h
      simp [h]
    · have : (i == k) = false := by simpa using hk
      rw [this] at h
      exact List.mem_cons_of_mem _ (ih h)

theorem lookup_of_mem {l : List (Nat × Twitch)} {i : Nat} {c : Twitch}
    (hn : (l.map Prod.fst).Nodup) (h : (i, c) ∈ l) : l.lookup i = some c := by
  induction l with
  | nil => simp at h
  | cons p l ih =>
    obtain ⟨k, d⟩ := p
    rw [List.map_cons, List.nodup_cons] at hn
    rw [List.lookup_cons]
    rcases List.mem_cons.mp h with heq | hmem
    · cases heq
      simp
    · have hne : i ≠ k := by
        rintro rfl
        exact hn.1 (List.mem_map.mpr ⟨(i, c), hmem, rfl⟩)
      have : (i == k) = false := by simpa using hne
      rw [this]
      exact ih hn.2 hmem

theorem PoolOK.nodup {l : List (Nat × Twitch)} (h : PoolOK l) : (l.map Prod.fst).Nodup := by
  rw [h]
  exact List.nodup_range' 1 l.length

theorem PoolOK.bounds {l : List (Nat × Twitch)} (h : PoolOK l) {i : Nat} {c : Twitch}
    (hm : (i, c) ∈ l) : 1 ≤ i ∧ i ≤ l.length := by
  have : i ∈ l.map Prod.fst := List.mem_map.mpr ⟨(i, c), hm, rfl⟩
  rw [h, List.mem_range'_1] at this
  omega

theorem PoolOK.lookup {l : List (Nat × Twitch)} (h : PoolOK l) {i : Nat}
    (h1 : 1 ≤ i) (h2 : i ≤ l.length) : ∃ c, l.lookup i = some c := by
  have : i ∈ l.map Prod.fst := by
    rw [h, List.mem_range'_1]
    omega
  obtain ⟨p, hp, rfl⟩ := List.mem_map.mp this
  exact ⟨p.2, lookup_of_mem h.nodup hp⟩

theorem PoolOK.lookup_none {l : List (Nat × Twitch)} (h : PoolOK l) {i : Nat}
    (hi : l.length < i) : l.lookup i = none := by
  cases hl : l.lookup i with
  | none => rfl
  | some c =>
    have := h.bounds (lookup_mem hl)
    omega

theorem PoolOK.append {l : List (Nat × Twitch)} (h : PoolOK l) (c : Twitch) :
    PoolOK (l ++ [(l.length + 1, c)]) := by
  unfold PoolOK at *
  rw [List.map_append, h, List.length_append, List.length_singleton, List.range'_concat]
  simp [Nat.add_comm]

theorem updateChat_keys (id : Nat) (f : Twitch → Twitch) (l : List (Nat × Twitch)) :
    (updateChat id f l).map Prod.fst = l.map Prod.fst := by
  induction l with
  | nil => rfl
  | cons p l ih =>
    obtain ⟨k, d⟩ := p
    simp only [updateChat, List.map_cons, ih]
    split <;> rfl

theorem updateChat_length (id : Nat) (f : Twitch → Twitch) (l : List (Nat × Twitch)) :
    (updateChat id f l).length = l.length := by
  have := congrArg List.length (updateChat_keys id f l)
  simpa using this

theorem PoolOK.update {l : List (Nat × Twitch)} (h : PoolOK l) (id : Nat) (f : Twitch → Twitch) :
    PoolOK (updateChat id f l) := by
  unfold PoolOK at *
  rw [updateChat_keys, updateChat_length, h]

theorem mem_updateChat {id : Nat} {f : Twitch → Twitch} {l : List (Nat × Twitch)}
    {i : Nat} {c : Twitch} :
    (i, c) ∈ updateChat id f l ↔
      ∃ c0, (i, c0) ∈ l ∧ c = if i = id then f c0 else c0 := by
  induction l with
  | nil => simp [updateChat]
  | cons p l ih =>
    obtain ⟨k, d⟩ := p
    simp only [updateChat, List.mem_cons, ih]
    constructor
    · rintro (h | ⟨c0, h0, h1⟩)
      · by_cases hk : k = id
        · rw [if_pos hk] at h
          cases h
          exact ⟨d, Or.inl rfl, by simp [hk]⟩
        · rw [if_neg hk] at h
          cases h
          exact ⟨c, Or.inl rfl, by simp [hk]⟩
      · exact ⟨c0, Or.inr h0, h1⟩
    · rintro ⟨c0, h0 | h0, h1⟩
      · cases h0
        left
        by_cases hk : i = id <;> simp [hk, h1]
      · exact Or.inr ⟨c0, h0, h1⟩

theorem lookup_updateChat (id : Nat) (f : Twitch → Twitch) (l : List (Nat × Twitch)) (i : Nat) :
    (updateChat id f l).lookup i = if i = id then (l.lookup i).map f else l.lookup i := by
  induction l with
  | nil => simp [updateChat]
  | cons p l ih =>
    obtain ⟨k, d⟩ := p
    by_cases hik : i = k
    · subst hik
      by_cases hid : i = id <;> simp [updateChat, hid]
    · have hb : (i == k) = false := by simpa using hik
      by_cases hid : k = id
      · simp only [updateChat, hid, if_true]
        rw [List.lookup_cons, List.lookup_cons]
        subst hid
        simp only [hb, ih]
      · simp only [updateChat, hid, if_false]
        rw [List.lookup_cons, List.lookup_cons]
        simp only [hb, ih]

/-! ## The calls to `Join` -/

theorem JoinFrame.refl (t : TwitchLogger) : JoinFrame t t :=
  ⟨rfl, rfl, rfl, rfl, rfl, rfl, rfl, rfl, rfl⟩

theorem JoinFrame.trans {t t1 t2 : TwitchLogger} (h1 : JoinFrame t t1) (h2 : JoinFrame t1 t2) :
    JoinFrame t t2 :=
  ⟨h2.channels.trans h1.channels, h2.admins.trans h1.admins,
    h2.commandChannel.trans h1.commandChannel, h2.file.trans h1.file,
    h2.leaveLog.trans h1.leaveLog, h2.existsLog.trans h1.existsLog,
    h2.createLog.trans h1.createLog, h2.started.trans h1.started, h2.sent.trans h1.sent⟩

theorem attempts_succ (e : Env) (id : Nat) (ch : String) (n : Nat) (t : TwitchLogger) :
    attempts e id ch (n + 1) t =
      match e.joinErr t.joinLog.length with
      | none =>
        (true, { t with
          chats := updateChat id (Twitch.add ch) t.chats
          joinLog := t.joinLog ++ [(id, ch, true)] })
      | some _ => attempts e id ch n { t with joinLog := t.joinLog ++ [(id, ch, false)] } := by
  simp only [attempts, Twitch.Join]
  cases e.joinErr t.joinLog.length <;> rfl

theorem joinCalls_zero (e : Env) (id : Nat) (ch : String) (base : Nat) :
    joinCalls e id ch base 0 = [] := rfl

theorem joinCalls_succ (e : Env) (id : Nat) (ch : String) (base m : Nat) :
    joinCalls e id ch base (m + 1) =
      (id, ch, (e.joinErr base).isNone) :: joinCalls e id ch (base + 1) m := by
  unfold joinCalls
  rw [List.range_succ_eq_map, List.map_cons, List.map_map]
  congr 1
  apply List.map_congr_left
  intro k _
  simp only [Function.comp, Nat.succ_eq_add_one]
  rw [Nat.add_assoc, Nat.add_comm 1 k]

theorem joinCalls_length (e : Env) (id : Nat) (ch : String) (base m : Nat) :
    (joinCalls e id ch base m).length = m := by
  simp [joinCalls]

theorem attempts_frame (e : Env) (id : Nat) (ch : String) :
    ∀ (n : Nat) (t : TwitchLogger), JoinFrame t (attempts e id ch n t).2 := by
  intro n
  induction n with
  | zero => intro t; exact JoinFrame.refl t
  | succ n ih =>
    intro t
    rw [attempts_succ]
    cases e.joinErr t.joinLog.length with
    | none => exact ⟨rfl, rfl, rfl, rfl, rfl, rfl, rfl, rfl, rfl⟩
    | some m =>
      have h := ih { t with joinLog := t.joinLog ++ [(id, ch, false)] }
      exact ⟨h.channels, h.admins, h.commandChannel, h.file, h.leaveLog, h.existsLog,
        h.createLog, h.started, h.sent⟩

theorem attempts_chats (e : Env) (id : Nat) (ch : String) :
    ∀ (n : Nat) (t : TwitchLogger),
      (attempts e id ch n t).2.chats =
        if (attempts e id ch n t).1 then
          updateChat id (Twitch.add ch) t.chats
        else t.chats := by
  intro n
  induction n with
  | zero => intro t; rfl
  | succ n ih =>
    intro t
    rw [attempts_succ]
    cases e.joinErr t.joinLog.length with
    | none => rfl
    | some m => exact ih _

theorem attempts_log (e : Env) (id : Nat) (ch : String) :
    ∀ (n : Nat) (t : TwitchLogger), ∃ m, m ≤ n ∧
      (attempts e id ch n t).2.joinLog = t.joinLog ++ joinCalls e id ch t.joinLog.length m ∧
      ((attempts e id ch n t).1 = false →
        m = n ∧ ∀ k, k < n → e.joinErr (t.joinLog.length + k) ≠ none) ∧
      ((attempts e id ch n t).1 = true →
        ∃ j, m = j + 1 ∧ e.joinErr (t.joinLog.length + j) = none ∧
          ∀ k, k < j → e.joinErr (t.joinLog.length + k) ≠ none) := by
  intro n
  induction n with
  | zero =>
    intro t
    exact ⟨0, Nat.le_refl 0, by simp [attempts, joinCalls], fun _ => ⟨rfl, fun k hk => by omega⟩,
      fun h => by simp [attempts] at h⟩
  | succ n ih =>
    intro t
    rw [attempts_succ]
    cases hj : e.joinErr t.joinLog.length with
    | none =>
      refine ⟨1, by omega, ?_, fun h => by simp at h, fun _ => ⟨0, rfl, by simpa using hj, ?_⟩⟩
      · simp [joinCalls_succ, joinCalls_zero, hj]
      · intro k hk; omega
    | some msg =>
      obtain ⟨m, hm, hlog, hf, ht⟩ := ih { t with joinLog := t.joinLog ++ [(id, ch, false)] }
      simp only [List.length_append, List.length_singleton] at hlog hf ht
      refine ⟨m + 1, by omega, ?_, ?_, ?_⟩
      · simp only []
        rw [hlog, joinCalls_succ, hj]
        simp
      · intro h
        obtain ⟨h1, h2⟩ := hf h
        refine ⟨by omega, ?_⟩
        intro k hk
        cases k with
        | zero => simp [hj]
        | succ k =>
          have := h2 k (by omega)
          rwa [Nat.add_assoc, Nat.add_comm 1 k] at this
      · intro h
        obtain ⟨j, h1, h2, h3⟩ := ht h
        refine ⟨j + 1, by omega, ?_, ?_⟩
        · rwa [Nat.add_assoc, Nat.add_comm 1 j] at h2
        · intro k hk
          cases k with
          | zero => simp [hj]
          | succ k =>
            have := h3 k (by omega)
            rwa [Nat.add_assoc, Nat.add_comm 1 k] at this

theorem attempts_first (e : Env) (id : Nat) (ch : String) (n : Nat) (t : TwitchLogger)
    (h : e.joinErr t.joinLog.length = none) :
    attempts e id ch (n + 1) t =
      (true, { t with
        chats := updateChat id (Twitch.add ch) t.chats
        joinLog := t.joinLog ++ [(id, ch, true)] }) := by
  rw [attempts_succ, h]

theorem attempts_add (e : Env) (id : Nat) (ch : String) (n : Nat) :
    ∀ (m : Nat) (t : TwitchLogger),
      attempts e id ch (m + n) t =
        if (attempts e id ch m t).1 then attempts e id ch m t
        else attempts e id ch n (attempts e id ch m t).2 := by
  intro m
  induction m with
  | zero => intro t; simp [attempts]
  | succ m ih =>
    intro t
    rw [show m + 1 + n = (m + n) + 1 by omega, attempts_succ, attempts_succ]
    cases e.joinErr t.joinLog.length with
    | none => rfl
    | some msg => exact ih _

theorem joinAgain_round (e : Env) (ch : String) (id fuel retrys : Nat) (t : TwitchLogger)
    (h : retrys ≠ 3) :
    joinAgain e ch (some id) (fuel + 1) retrys t =
      if (attempts e id ch 2 t).1 then .ret none (attempts e id ch 2 t).2
      else joinAgain e ch (some id) fuel (retrys + 1) (attempts e id ch 2 t).2 := by
  simp only [joinAgain, callJoin, attempts]
  generalize Twitch.Join e id ch t = r1
  obtain ⟨o1, t1⟩ := r1
  cases o1 with
  | none => simp
  | some m1 =>
    simp only [if_neg h]
    generalize Twitch.Join e id ch t1 = r2
    obtain ⟨o2, t2⟩ := r2
    cases o2 <;> simp

theorem joinAgain_last (e : Env) (ch : String) (id fuel : Nat) (t : TwitchLogger) :
    joinAgain e ch (some id) (fuel + 1) 3 t =
      if (attempts e id ch 1 t).1 then .ret none (attempts e id ch 1 t).2
      else .ret (some (.failedToJoin ch)) (attempts e id ch 1 t).2 := by
  simp only [joinAgain, callJoin, attempts]
  generalize Twitch.Join e id ch t = r1
  obtain ⟨o1, t1⟩ := r1
  cases o1 <;> simp

theorem joinAgain_eq (e : Env) (ch : String) (id : Nat) (init : Bool) (fuel : Nat)
    (t : TwitchLogger) :
    (match joinAgain e ch (some id) (fuel + 4) 0 t with
      | .ret none t3 =>
        if init then .ret none (saveChannels e (addChannel ch t3)).2 else .ret none t3
      | other => other) = joinTail e ch init (attempts e id ch 7 t) := by
  rw [joinAgain_round e ch id (fuel + 3) 0 t (by decide),
    show (7 : Nat) = 2 + (2 + (2 + 1)) by rfl, attempts_add, attempts_add, attempts_add]
  by_cases h1 : (attempts e id ch 2 t).1 = true
  · simp [h1, joinTail]
  · rw [if_neg h1, if_neg h1, joinAgain_round e ch id (fuel + 2) 1 _ (by decide)]
    by_cases h2 : (attempts e id ch 2 (attempts e id ch 2 t).2).1 = true
    · simp [h2, joinTail]
    · rw [if_neg h2, if_neg h2, joinAgain_round e ch id (fuel + 1) 2 _ (by decide)]
      by_cases h3 : (attempts e id ch 2 (attempts e id ch 2 (attempts e id ch 2 t).2).2).1 = true
      · simp [h3, joinTail]
      · rw [if_neg h3, if_neg h3, joinAgain_last]
        by_cases h4 : (attempts e id ch 1
            (attempts e id ch 2 (attempts e id ch 2 (attempts e id ch 2 t).2).2).2).1 = true
        · simp [h4, joinTail]
        · simp [h4, joinTail]
/-! ## The acquisition of a handle in `join` -/

theorem joinPick_spec (max : Nat) (chats : List (Nat × Twitch)) :
    ∀ (n i : Nat), (∀ j, i ≤ j → j < i + n → ∃ c, chats.lookup j = some c) →
      (∃ i1 c, joinPick max chats n i = .found i1 ∧ i ≤ i1 ∧ i1 < i + n ∧
          chats.lookup i1 = some c ∧ c.channels.length < max ∧
          ∀ j c1, i ≤ j → j < i1 → chats.lookup j = some c1 → max ≤ c1.channels.length) ∨
      (joinPick max chats n i = .notFound ∧
          ∀ j c1, i ≤ j → j < i + n → chats.lookup j = some c1 → max ≤ c1.channels.length) := by
  intro n
  induction n with
  | zero =>
    intro i _
    right
    exact ⟨rfl, fun j c1 h1 h2 => by omega⟩
  | succ n ih =>
    intro i hall
    obtain ⟨c, hc⟩ := hall i (Nat.le_refl i) (by omega)
    by_cases hroom : c.channels.length < max
    · left
      refine ⟨i, c, ?_, Nat.le_refl i, by omega, hc, hroom, fun j c1 h1 h2 => by omega⟩
      simp [joinPick, hc, hroom]
    · have hstep : joinPick max chats (n + 1) i = joinPick max chats n (i + 1) := by
        simp [joinPick, hc, hroom]
      rw [hstep]
      rcases ih (i + 1) (fun j h1 h2 => hall j (by omega) (by omega)) with
        ⟨i1, c1, h1, h2, h3, h4, h5, h6⟩ | ⟨h1, h2⟩
      · left
        refine ⟨i1, c1, h1, by omega, by omega, h4, h5, ?_⟩
        intro j c2 hj1 hj2 hj3
        by_cases hji : j = i
        · subst hji
          rw [hc] at hj3
          cases hj3
          omega
        · exact h6 j c2 (by omega) hj2 hj3
      · right
        refine ⟨h1, ?_⟩
        intro j c2 hj1 hj2 hj3
        by_cases hji : j = i
        · subst hji
          rw [hc] at hj3
          cases hj3
          omega
        · exact h2 j c2 (by omega) (by omega) hj3

theorem joinCore_eq (e : Env) (fuel : Nat) (ch : String) (init : Bool) (t : TwitchLogger)
    (hp : PoolOK t.chats) :
    ∃ id t1, Acquired e.MaxChannelsPerChat t id t1 ∧
      joinCore e (fuel + 4) ch init t = joinTail e ch init (attempts e id ch 7 t1) := by
  rcases joinPick_spec e.MaxChannelsPerChat t.chats t.chats.length 1
      (fun j h1 h2 => hp.lookup h1 (by omega)) with
    ⟨i1, c, h1, h2, h3, h4, h5, h6⟩ | ⟨h1, h2⟩
  · refine ⟨i1, t, Acquired.existing i1 c h4 h5 ?_, ?_⟩
    · intro p hpm hlt
      have hb := hp.bounds (show (p.1, p.2) ∈ t.chats from hpm)
      exact h6 p.1 p.2 hb.1 hlt (lookup_of_mem hp.nodup hpm)
    · unfold joinCore
      rw [h1]
      exact joinAgain_eq e ch i1 init fuel t
  · refine ⟨t.chats.length + 1, _, Acquired.fresh ?_, ?_⟩
    · intro p hpm
      have hb := hp.bounds (show (p.1, p.2) ∈ t.chats from hpm)
      exact h2 p.1 p.2 hb.1 (by omega) (lookup_of_mem hp.nodup hpm)
    · unfold joinCore
      rw [h1]
      have hnone : t.chats.lookup (t.chats.length + 1) = none :=
        hp.lookup_none (Nat.lt_succ_self _)
      simp only [startNewChat, hnone]
      exact joinAgain_eq e ch (t.chats.length + 1) init fuel _

theorem join_false (e : Env) (fuel : Nat) (ch : String) (t : TwitchLogger) :
    join e fuel ch false t = joinCore e fuel ch false t := by
  simp [join]

/-! ## The outcomes of `join` -/

theorem saveChannels_chats (e : Env) (t : TwitchLogger) :
    (saveChannels e t).2.chats = t.chats ∧ (saveChannels e t).2.started = t.started ∧
      (saveChannels e t).2.joinLog = t.joinLog ∧ (saveChannels e t).2.leaveLog = t.leaveLog := by
  unfold saveChannels
  cases e.createErr t.createLog.length <;> exact ⟨rfl, rfl, rfl, rfl⟩

theorem saveChannels_channels (e : Env) (t : TwitchLogger) :
    (saveChannels e t).2.channels = t.channels ∨
      (saveChannels e t).2.channels = sortStrings t.channels := by
  unfold saveChannels
  cases e.createErr t.createLog.length
  · right; rfl
  · left; rfl

theorem sortStrings_perm (l : List String) : (sortStrings l).Perm l :=
  List.perm_insertionSort _ l

theorem saveChannels_perm (e : Env) (t : TwitchLogger) :
    (saveChannels e t).2.channels.Perm t.channels := by
  rcases saveChannels_channels e t with h | h
  · rw [h]
  · rw [h]; exact sortStrings_perm _

theorem joinTail_ret (e : Env) (ch : String) (init : Bool) (r : Bool × TwitchLogger) :
    ∃ t1, joinTail e ch init r = .ret (if r.1 then none else some (.failedToJoin ch)) t1 ∧
      t1.chats = r.2.chats ∧ t1.started = r.2.started ∧ t1.joinLog = r.2.joinLog ∧
      (t1 = r.2 ∨ (r.1 = true ∧ init = true ∧ t1 = (saveChannels e (addChannel ch r.2)).2)) := by
  obtain ⟨ok, t⟩ := r
  cases ok with
  | false => exact ⟨t, by simp [joinTail], rfl, rfl, rfl, Or.inl rfl⟩
  | true =>
    cases init with
    | false => exact ⟨t, by simp [joinTail], rfl, rfl, rfl, Or.inl rfl⟩
    | true =>
      have h := saveChannels_chats e (addChannel ch t)
      exact ⟨_, by simp [joinTail], h.1, h.2.1, h.2.2.1, Or.inr ⟨rfl, rfl, rfl⟩⟩

theorem join_cases (e : Env) (fuel : Nat) (ch : String) (init : Bool) (t : TwitchLogger)
    (hp : PoolOK t.chats) :
    (init = true ∧ inSlice e t.channels ch = true ∧
        join e (fuel + 4) ch init t = .ret (some .errAlreadyInChannel) t) ∨
    (∃ t0, Checked ch t t0 ∧ init = true ∧
        (join e (fuel + 4) ch init t = .panic t0 ∨
          join e (fuel + 4) ch init t = .ret (some .errChannelNotValid) t0)) ∨
    (∃ t0 id t1, Checked ch t t0 ∧ (init = false → t0 = t) ∧
        (init = true → inSlice e t.channels ch = false) ∧
        Acquired e.MaxChannelsPerChat t0 id t1 ∧
        join e (fuel + 4) ch init t = joinTail e ch init (attempts e id ch 7 t1)) := by
  cases init with
  | false =>
    right; right
    obtain ⟨id, t1, ha, hj⟩ := joinCore_eq e fuel ch false t hp
    exact ⟨t, id, t1, Or.inl rfl, fun _ => rfl, by simp, ha, by rw [join_false]; exact hj⟩
  | true =>
    by_cases hin : inSlice e t.channels ch = true
    · left
      exact ⟨rfl, hin, by simp [join, hin]⟩
    · right
      have hin2 : inSlice e t.channels ch = false := by simpa using hin
      by_cases hurl : e.urlOk ch = true
      · cases hst : e.httpStatus t.existsLog.length with
        | none =>
          left
          exact ⟨_, Or.inr rfl, rfl, Or.inl (by simp [join, hin2, channelExists, hurl, hst])⟩
        | some code =>
          by_cases hcode : code = 200
          · right
            have hp0 : PoolOK ({ t with existsLog := t.existsLog ++ [ch] } : TwitchLogger).chats := hp
            obtain ⟨id, t1, ha, hj⟩ := joinCore_eq e fuel ch true _ hp0
            refine ⟨_, id, t1, Or.inr rfl, by simp, fun _ => hin2, ha, ?_⟩
            rw [← hj]
            simp [join, hin2, channelExists, hurl, hst, hcode]
          · left
            have hb : (code == 200) = false := by simpa using hcode
            exact ⟨_, Or.inr rfl, rfl, Or.inr (by simp [join, hin2, channelExists, hurl, hst, hb])⟩
      · left
        exact ⟨t, Or.inl rfl, rfl, Or.inl (by simp [join, hin2, channelExists, hurl])⟩

/-! ## The shard fill invariant -/

theorem Twitch.add_length_le (ch : String) (c : Twitch) :
    (Twitch.add ch c).channels.length ≤ c.channels.length + 1 := by
  unfold Twitch.add
  split
  · omega
  · simp

theorem Twitch.add_length_of_not_mem {ch : String} {c : Twitch} (h : ch ∉ c.channels) :
    (Twitch.add ch c).channels.length = c.channels.length + 1 := by
  unfold Twitch.add
  rw [if_neg h]
  simp

theorem Twitch.mem_add {ch x : String} {c : Twitch} :
    x ∈ (Twitch.add ch c).channels ↔ x ∈ c.channels ∨ x = ch := by
  unfold Twitch.add
  split
  · constructor
    · intro h; exact Or.inl h
    · rintro (h | rfl)
      · exact h
      · assumption
  · simp

theorem Acquired.poolInv {max : Nat} {t t1 : TwitchLogger} {id : Nat}
    (ha : Acquired max t id t1) (hi : PoolInv max t) : PoolInv max t1 := by
  cases ha with
  | existing i c hc hroom hlow => exact hi
  | fresh hfull =>
    obtain ⟨hp, hb, hk⟩ := hi
    refine ⟨hp.append _, ?_, ?_⟩
    · intro p hpm
      rcases List.mem_append.mp hpm with h | h
      · exact hb p h
      · rw [List.mem_singleton] at h
        subst h
        exact Nat.zero_le _
    · show (t.started ++ [_]).map Prod.fst = (t.chats ++ [_]).map Prod.fst
      rw [List.map_append, List.map_append, hk]
      rfl

theorem Acquired.startedFull {max : Nat} {t t1 : TwitchLogger} {id : Nat}
    (ha : Acquired max t id t1) (hi : PoolInv max t) (hs : StartedFull max t) :
    StartedFull max t1 := by
  cases ha with
  | existing i c hc hroom hlow => exact hs
  | fresh hfull =>
    intro s hsm
    rcases List.mem_append.mp hsm with h | h
    · exact hs s h
    · rw [List.mem_singleton] at h
      subst h
      intro p hpm
      exact Nat.le_antisymm (hi.2.1 p hpm) (hfull p hpm)

theorem Acquired.inv {max : Nat} {t t1 : TwitchLogger} {id : Nat}
    (ha : Acquired max t id t1) (hi : ShardInv max t) : ShardInv max t1 :=
  ⟨ha.poolInv hi.1, ha.startedFull hi.1 hi.2⟩

theorem Acquired.room {max : Nat} {t t1 : TwitchLogger} {id : Nat}
    (ha : Acquired max t id t1) (hp : PoolOK t.chats) (hmax : 0 < max) :
    ∃ c, t1.chats.lookup id = some c ∧ c.channels.length < max := by
  cases ha with
  | existing i c hc hroom hlow => exact ⟨c, hc, hroom⟩
  | fresh hfull =>
    refine ⟨{ channels := [] }, ?_, hmax⟩
    show (t.chats ++ [(t.chats.length + 1, _)]).lookup (t.chats.length + 1) = _
    rw [List.lookup_append, hp.lookup_none (Nat.lt_succ_self _)]
    simp

theorem Acquired.handle {max : Nat} {t t1 : TwitchLogger} {id : Nat}
    (ha : Acquired max t id t1) (hp : PoolOK t.chats) :
    ∃ c, t1.chats.lookup id = some c := by
  cases ha with
  | existing i c hc hroom hlow => exact ⟨c, hc⟩
  | fresh hfull =>
    refine ⟨{ channels := [] }, ?_⟩
    show (t.chats ++ [(t.chats.length + 1, _)]).lookup (t.chats.length + 1) = _
    rw [List.lookup_append, hp.lookup_none (Nat.lt_succ_self _)]
    simp

theorem Acquired.frame {max : Nat} {t t1 : TwitchLogger} {id : Nat}
    (ha : Acquired max t id t1) :
    t1.channels = t.channels ∧ t1.joinLog = t.joinLog ∧ t1.file = t.file ∧
      t1.createLog = t.createLog ∧ t1.existsLog = t.existsLog := by
  cases ha <;> exact ⟨rfl, rfl, rfl, rfl, rfl⟩

theorem Acquired.length_le {max : Nat} {t t1 : TwitchLogger} {id : Nat}
    (ha : Acquired max t id t1) : t.chats.length ≤ t1.chats.length := by
  cases ha with
  | existing i c hc hroom hlow => exact Nat.le_refl _
  | fresh hfull =>
    show t.chats.length ≤ (t.chats ++ [_]).length
    simp

theorem attempts_length (e : Env) (id : Nat) (ch : String) (n : Nat) (t : TwitchLogger) :
    (attempts e id ch n t).2.chats.length = t.chats.length := by
  rw [attempts_chats]
  split
  · exact updateChat_length _ _ _
  · rfl

theorem attempts_poolInv (e : Env) (id : Nat) (ch : String) (n : Nat) {max : Nat}
    {t : TwitchLogger} {c : Twitch} (hi : PoolInv max t)
    (hc : t.chats.lookup id = some c) (hroom : c.channels.length < max) :
    PoolInv max (attempts e id ch n t).2 := by
  obtain ⟨hp, hb, hk⟩ := hi
  have hch := attempts_chats e id ch n t
  have hfr := attempts_frame e id ch n t
  refine ⟨?_, ?_, ?_⟩
  · rw [hch]
    split
    · exact hp.update _ _
    · exact hp
  · rw [hch]
    split
    · intro p hpm
      obtain ⟨c0, h0, h1⟩ := mem_updateChat.mp (show (p.1, p.2) ∈ _ from hpm)
      by_cases hid : p.1 = id
      · rw [if_pos hid] at h1
        have : c0 = c := by
          have := lookup_of_mem hp.nodup h0
          rw [hid, hc] at this
          exact (Option.some.inj this).symm
        rw [h1, this]
        have := Twitch.add_length_le ch c
        omega
      · rw [if_neg hid] at h1
        rw [h1]
        exact hb _ h0
    · exact hb
  · rw [hfr.started, hk, hch]
    split
    · rw [updateChat_keys]
    · rfl

theorem attempts_startedFull (e : Env) (id : Nat) (ch : String) (n : Nat) {max : Nat}
    {t : TwitchLogger} (hs : StartedFull max t) :
    StartedFull max (attempts e id ch n t).2 := by
  unfold StartedFull
  rw [(attempts_frame e id ch n t).started]
  exact hs

theorem attempts_inv (e : Env) (id : Nat) (ch : String) (n : Nat) {max : Nat}
    {t : TwitchLogger} {c : Twitch} (hi : ShardInv max t)
    (hc : t.chats.lookup id = some c) (hroom : c.channels.length < max) :
    ShardInv max (attempts e id ch n t).2 :=
  ⟨attempts_poolInv e id ch n hi.1 hc hroom, attempts_startedFull e id ch n hi.2⟩

theorem Checked.keepsPool {ch : String} {max : Nat} {t t0 : TwitchLogger} (h : Checked ch t t0)
    (hi : PoolInv max t) : PoolInv max t0 := by
  rcases h with rfl | rfl <;> exact hi

theorem Checked.keepsStarted {ch : String} {max : Nat} {t t0 : TwitchLogger}
    (h : Checked ch t t0) (hi : StartedFull max t) : StartedFull max t0 := by
  rcases h with rfl | rfl <;> exact hi

theorem join_poolInv (e : Env) (fuel : Nat) (ch : String) (init : Bool) {t t2 : TwitchLogger}
    (hmax : 0 < e.MaxChannelsPerChat) (hi : PoolInv e.MaxChannelsPerChat t)
    (h : (join e (fuel + 4) ch init t).state? = some t2) :
    PoolInv e.MaxChannelsPerChat t2 ∧ t.chats.length ≤ t2.chats.length := by
  rcases join_cases e fuel ch init t hi.1 with
    ⟨_, _, hj⟩ | ⟨t0, hck, _, hj | hj⟩ | ⟨t0, id, t1, hck, _, _, ha, hj⟩
  · rw [hj] at h
    cases h
    exact ⟨hi, Nat.le_refl _⟩
  · rw [hj] at h
    cases h
    rcases hck with rfl | rfl <;> exact ⟨hi, Nat.le_refl _⟩
  · rw [hj] at h
    cases h
    rcases hck with rfl | rfl <;> exact ⟨hi, Nat.le_refl _⟩
  · have hi0 := hck.keepsPool hi
    have hlen0 : t0.chats.length = t.chats.length := by
      rcases hck with rfl | rfl <;> rfl
    obtain ⟨c, hc, hroom⟩ := ha.room hi0.1 hmax
    have hi2 := attempts_poolInv e id ch 7 (ha.poolInv hi0) hc hroom
    obtain ⟨t3, hret, h1, h2, _, _⟩ := joinTail_ret e ch init (attempts e id ch 7 t1)
    rw [hj, hret] at h
    cases h
    refine ⟨⟨by rw [h1]; exact hi2.1, by rw [h1]; exact hi2.2.1,
      by rw [h1, h2]; exact hi2.2.2⟩, ?_⟩
    rw [h1, attempts_length, ← hlen0]
    exact ha.length_le

theorem join_startedFull (e : Env) (fuel : Nat) (ch : String) (init : Bool)
    {t t2 : TwitchLogger} (hi : PoolInv e.MaxChannelsPerChat t)
    (hs : StartedFull e.MaxChannelsPerChat t)
    (h : (join e (fuel + 4) ch init t).state? = some t2) :
    StartedFull e.MaxChannelsPerChat t2 := by
  rcases join_cases e fuel ch init t hi.1 with
    ⟨_, _, hj⟩ | ⟨t0, hck, _, hj | hj⟩ | ⟨t0, id, t1, hck, _, _, ha, hj⟩
  · rw [hj] at h
    cases h
    exact hs
  · rw [hj] at h
    cases h
    exact hck.keepsStarted hs
  · rw [hj] at h
    cases h
    exact hck.keepsStarted hs
  · have hs2 := attempts_startedFull e id ch 7
      (ha.startedFull (hck.keepsPool hi) (hck.keepsStarted hs))
    obtain ⟨t3, hret, _, h2, _, _⟩ := joinTail_ret e ch init (attempts e id ch 7 t1)
    rw [hj, hret] at h
    cases h
    unfold StartedFull
    rw [h2]
    exact hs2

theorem join_inv (e : Env) (fuel : Nat) (ch : String) (init : Bool) {t t2 : TwitchLogger}
    (hmax : 0 < e.MaxChannelsPerChat) (hi : ShardInv e.MaxChannelsPerChat t)
    (h : (join e (fuel + 4) ch init t).state? = some t2) :
    ShardInv e.MaxChannelsPerChat t2 :=
  ⟨(join_poolInv e fuel ch init hmax hi.1 h).1, join_startedFull e fuel ch init hi.1 hi.2 h⟩

theorem join_false_ret (e : Env) (fuel : Nat) (ch : String) {t : TwitchLogger}
    (hp : PoolOK t.chats) :
    ∃ err t2, join e (fuel + 4) ch false t = .ret err t2 ∧ t2.channels = t.channels := by
  rcases join_cases e fuel ch false t hp with
    ⟨h, _⟩ | ⟨_, _, h, _⟩ | ⟨t0, id, t1, _, ht0, _, ha, hj⟩
  · cases h
  · cases h
  · have ht0 : t0 = t := ht0 rfl
    subst ht0
    obtain ⟨t3, hret, _, _, _, hcase⟩ := joinTail_ret e ch false (attempts e id ch 7 t1)
    refine ⟨_, t3, by rw [hj, hret], ?_⟩
    rcases hcase with rfl | ⟨_, h, _⟩
    · rw [(attempts_frame e id ch 7 t1).channels, ha.frame.1]
    · cases h

/-! ## The loop of `Start` -/

theorem startLoop_cons (e : Env) (fuel : Nat) (channel : String) (rest : List String)
    (count chatID : Nat) (t : TwitchLogger) :
    startLoop e fuel (channel :: rest) count chatID t =
      match join e fuel channel false
          (if (t.chats.lookup (if count = e.MaxChannelsPerChat then chatID + 1 else chatID)).isNone
            then (startNewChat (if count = e.MaxChannelsPerChat then chatID + 1 else chatID) t).2
            else t) with
      | .timeout => .timeout
      | .panic t2 => .panic t2
      | .ret (some _) t2 =>
        startLoop e fuel rest (if count = e.MaxChannelsPerChat then 0 else count)
          (if count = e.MaxChannelsPerChat then chatID + 1 else chatID) t2
      | .ret none t2 =>
        startLoop e fuel rest ((if count = e.MaxChannelsPerChat then 0 else count) + 1)
          (if count = e.MaxChannelsPerChat then chatID + 1 else chatID) t2 := rfl

theorem fresh_poolInv {max : Nat} {t : TwitchLogger} (hi : PoolInv max t) :
    PoolInv max
      { t with
        chats := t.chats ++ [(t.chats.length + 1, { channels := [] })]
        started := t.started ++ [(t.chats.length + 1, t.chats)] } := by
  obtain ⟨hp, hb, hk⟩ := hi
  refine ⟨hp.append _, ?_, ?_⟩
  · intro p hpm
    rcases List.mem_append.mp hpm with h | h
    · exact hb p h
    · rw [List.mem_singleton] at h
      subst h
      exact Nat.zero_le _
  · show (t.started ++ [_]).map Prod.fst = (t.chats ++ [_]).map Prod.fst
    rw [List.map_append, List.map_append, hk]
    rfl

theorem fresh_roundInv {max : Nat} {seen : List String} {t : TwitchLogger} (hmax : 0 < max)
    (hi : ShardInv max t) (hseen : ∀ p ∈ t.chats, ∀ x ∈ p.2.channels, x ∈ seen)
    (hfull : ∀ p ∈ t.chats, max ≤ p.2.channels.length) :
    RoundInv max seen 0 (t.chats.length + 1)
      { t with
        chats := t.chats ++ [(t.chats.length + 1, { channels := [] })]
        started := t.started ++ [(t.chats.length + 1, t.chats)] } := by
  have ha : Acquired max t (t.chats.length + 1) _ := Acquired.fresh hfull
  refine ⟨ha.inv hi, hmax, ?_, by simp, ?_, ?_⟩
  · intro p hpm x hx
    rcases List.mem_append.mp hpm with h | h
    · exact hseen p h x hx
    · rw [List.mem_singleton] at h
      subst h
      cases hx
  · intro p hpm hlt
    rcases List.mem_append.mp hpm with h | h
    · exact Nat.le_antisymm (hi.1.2.1 p h) (hfull p h)
    · rw [List.mem_singleton] at h
      subst h
      simp at hlt
  · refine ⟨{ channels := [] }, ?_, rfl⟩
    show (t.chats ++ [(t.chats.length + 1, _)]).lookup (t.chats.length + 1) = _
    rw [List.lookup_append, hi.1.1.lookup_none (Nat.lt_succ_self _)]
    simp

theorem start_prep {max count chatID : Nat} {seen : List String} {t : TwitchLogger}
    (hmax : 0 < max) (hinv : StartInv max seen count chatID t) :
    RoundInv max seen (if count = max then 0 else count)
        (if count = max then chatID + 1 else chatID)
        (if (t.chats.lookup (if count = max then chatID + 1 else chatID)).isNone
          then (startNewChat (if count = max then chatID + 1 else chatID) t).2 else t) ∧
      (if (t.chats.lookup (if count = max then chatID + 1 else chatID)).isNone
          then (startNewChat (if count = max then chatID + 1 else chatID) t).2 else t).joinLog
        = t.joinLog ∧
      (if (t.chats.lookup (if count = max then chatID + 1 else chatID)).isNone
          then (startNewChat (if count = max then chatID + 1 else chatID) t).2 else t).channels
        = t.channels := by
  obtain ⟨hi, hle, hseen, hcase⟩ := hinv
  rcases hcase with ⟨hnil, hid, hcount⟩ | ⟨hlen, hlow, c, hc, hclen⟩
  · subst hid hcount
    have hne : ¬ (0 = max) := by omega
    simp only [if_neg hne, hnil, List.lookup_nil, Option.isNone_none, if_true, startNewChat]
    have := fresh_roundInv hmax hi hseen (by rw [hnil]; intro p hp; cases hp)
    rw [hnil] at this
    exact ⟨this, trivial, trivial⟩
  · by_cases hcm : count = max
    · simp only [if_pos hcm]
      have hnone : t.chats.lookup (chatID + 1) = none :=
        hi.1.1.lookup_none (by omega)
      simp only [hnone, Option.isNone_none, if_true, startNewChat]
      have hfull : ∀ p ∈ t.chats, max ≤ p.2.channels.length := by
        intro p hpm
        have hb := hi.1.1.bounds (show (p.1, p.2) ∈ t.chats from hpm)
        by_cases hlt : p.1 < chatID
        · exact Nat.le_of_eq (hlow p hpm hlt).symm
        · have hpe : p.1 = chatID := by omega
          have := lookup_of_mem hi.1.1.nodup (show (p.1, p.2) ∈ t.chats from hpm)
          rw [hpe, hc] at this
          cases this
          omega
      have := fresh_roundInv hmax hi hseen hfull
      rw [hlen] at this
      exact ⟨this, trivial, trivial⟩
    · simp only [if_neg hcm, hc, Option.isNone_some]
      exact ⟨⟨hi, by omega, hseen, hlen, hlow, c, hc, hclen⟩, rfl, rfl⟩

theorem join_round (e : Env) (fuel : Nat) (ch : String) {count chatID : Nat}
    {seen : List String} {t : TwitchLogger}
    (hr : RoundInv e.MaxChannelsPerChat seen count chatID t) :
    join e (fuel + 4) ch false t =
      .ret (if (attempts e chatID ch 7 t).1 then none else some (.failedToJoin ch))
        (attempts e chatID ch 7 t).2 := by
  obtain ⟨hi, hlt, _, hlen, hlow, c, hc, hclen⟩ := hr
  have hmem : (chatID, c) ∈ t.chats := lookup_mem hc
  rcases join_cases e fuel ch false t hi.1.1 with
    ⟨h, _⟩ | ⟨_, _, h, _⟩ | ⟨t0, id, t1, _, ht0, _, ha, hj⟩
  · cases h
  · cases h
  · have ht0 : t0 = t := ht0 rfl
    subst ht0
    rw [hj]
    cases ha with
    | existing i c1 hc1 hroom hlow1 =>
      have h1 : ¬ chatID < id := by
        intro hlt2
        have := hlow1 (chatID, c) hmem hlt2
        simp at this
        omega
      have h2 : ¬ id < chatID := by
        intro hlt2
        have := hlow (id, c1) (lookup_mem hc1) hlt2
        simp at this
        omega
      have : id = chatID := by omega
      subst this
      by_cases hok : (attempts e id ch 7 t0).1 = true <;> simp [joinTail, hok]
    | fresh hfull =>
      have := hfull (chatID, c) hmem
      simp at this
      omega

theorem attempts_round (e : Env) (ch : String) (n : Nat) {max count chatID : Nat}
    {seen : List String} {t : TwitchLogger} (hr : RoundInv max seen count chatID t)
    (hnew : ch ∉ seen) :
    StartInv max (ch :: seen) (if (attempts e chatID ch n t).1 then count + 1 else count)
      chatID (attempts e chatID ch n t).2 := by
  obtain ⟨hi, hlt, hseen, hlen, hlow, c, hc, hclen⟩ := hr
  have hi2 := attempts_inv e chatID ch n hi hc (by omega)
  have hch := attempts_chats e chatID ch n t
  have hcnew : ch ∉ c.channels := fun h => hnew (hseen _ (lookup_mem hc) ch h)
  refine ⟨hi2, by split <;> omega, ?_, Or.inr ?_⟩
  · by_cases hok : (attempts e chatID ch n t).1 = true
    · rw [if_pos hok] at hch
      rw [hch]
      intro p hpm x hx
      obtain ⟨c0, h0, h1⟩ := mem_updateChat.mp (show (p.1, p.2) ∈ _ from hpm)
      by_cases hid : p.1 = chatID
      · rw [if_pos hid] at h1
        rw [h1] at hx
        rcases Twitch.mem_add.mp hx with h | h
        · exact List.mem_cons_of_mem _ (hseen _ h0 x h)
        · rw [h]; exact List.mem_cons_self _ _
      · rw [if_neg hid] at h1
        rw [h1] at hx
        exact List.mem_cons_of_mem _ (hseen _ h0 x hx)
    · rw [if_neg hok] at hch
      rw [hch]
      intro p hpm x hx
      exact List.mem_cons_of_mem _ (hseen p hpm x hx)
  · by_cases hok : (attempts e chatID ch n t).1 = true
    · rw [if_pos hok] at hch
      rw [hch, if_pos hok]
      refine ⟨by rw [updateChat_length]; exact hlen, ?_, ?_⟩
      · intro p hpm hplt
        obtain ⟨c0, h0, h1⟩ := mem_updateChat.mp (show (p.1, p.2) ∈ _ from hpm)
        rw [if_neg (by omega)] at h1
        rw [h1]
        exact hlow _ h0 hplt
      · refine ⟨_, by rw [lookup_updateChat, if_pos rfl, hc]; rfl, ?_⟩
        rw [Twitch.add_length_of_not_mem hcnew, hclen]
    · rw [if_neg hok] at hch
      rw [hch, if_neg hok]
      exact ⟨hlen, hlow, c, hc, hclen⟩

theorem startLoop_step (e : Env) (fuel : Nat) (channel : String) (rest : List String)
    {count chatID : Nat} {seen : List String} {t : TwitchLogger}
    (hmax : 0 < e.MaxChannelsPerChat)
    (hinv : StartInv e.MaxChannelsPerChat seen count chatID t) (hnew : channel ∉ seen) :
    ∃ count2 t2,
      startLoop e (fuel + 4) (channel :: rest) count chatID t =
        startLoop e (fuel + 4) rest count2
          (if count = e.MaxChannelsPerChat then chatID + 1 else chatID) t2 ∧
      StartInv e.MaxChannelsPerChat (channel :: seen) count2
        (if count = e.MaxChannelsPerChat then chatID + 1 else chatID) t2 ∧
      t2.chats.length = (if count = e.MaxChannelsPerChat then chatID + 1 else chatID) ∧
      t2.channels = t.channels ∧
      (∃ m, m ≤ 7 ∧ t2.joinLog = t.joinLog ++
        joinCalls e (if count = e.MaxChannelsPerChat then chatID + 1 else chatID) channel
          t.joinLog.length m) ∧
      (e.joinErr t.joinLog.length = none →
        count2 = (if count = e.MaxChannelsPerChat then 0 else count) + 1 ∧
        t2.joinLog = t.joinLog ++
          [((if count = e.MaxChannelsPerChat then chatID + 1 else chatID), channel, true)]) := by
  obtain ⟨hr, hlog, hchan⟩ := start_prep hmax hinv
  rw [startLoop_cons]
  generalize (if count = e.MaxChannelsPerChat then chatID + 1 else chatID) = chatID1 at *
  generalize (if count = e.MaxChannelsPerChat then 0 else count) = count1 at *
  generalize (if (t.chats.lookup chatID1).isNone then (startNewChat chatID1 t).2 else t) = t1 at *
  rw [join_round e fuel channel hr]
  have hst := attempts_round e channel 7 hr hnew
  have hfr := attempts_frame e chatID1 channel 7 t1
  obtain ⟨m, hm, hl, _, _⟩ := attempts_log e chatID1 channel 7 t1
  have hlen : (attempts e chatID1 channel 7 t1).2.chats.length = chatID1 := by
    rw [attempts_length]
    exact hr.2.2.2.1
  rw [hlog] at hl
  by_cases hok : (attempts e chatID1 channel 7 t1).1 = true
  · rw [if_pos hok] at hst
    refine ⟨count1 + 1, (attempts e chatID1 channel 7 t1).2, by simp [hok], hst, hlen,
      by rw [hfr.channels, hchan], ⟨m, hm, hl⟩, ?_⟩
    intro hnone
    refine ⟨rfl, ?_⟩
    rw [attempts_first e chatID1 channel 6 t1 (by rw [hlog]; exact hnone)]
    simp [hlog]
  · rw [if_neg hok] at hst
    refine ⟨count1, (attempts e chatID1 channel 7 t1).2, by simp [hok], hst, hlen,
      by rw [hfr.channels, hchan], ⟨m, hm, hl⟩, ?_⟩
    intro hnone
    rw [attempts_first e chatID1 channel 6 t1 (by rw [hlog]; exact hnone)] at hok
    simp at hok

theorem startLoop_inv (e : Env) (fuel : Nat) (hmax : 0 < e.MaxChannelsPerChat) :
    ∀ (rest seen : List String) (count chatID : Nat) (t : TwitchLogger),
      StartInv e.MaxChannelsPerChat seen count chatID t →
      rest.Nodup → (∀ x ∈ rest, x ∉ seen) →
      ∃ t2, startLoop e (fuel + 4) rest count chatID t = .ret () t2 ∧
        ShardInv e.MaxChannelsPerChat t2 ∧ t2.channels = t.channels := by
  intro rest
  induction rest with
  | nil =>
    intro seen count chatID t hinv _ _
    exact ⟨t, rfl, hinv.1, rfl⟩
  | cons channel rest ih =>
    intro seen count chatID t hinv hnd hfresh
    rw [List.nodup_cons] at hnd
    obtain ⟨count2, t2, heq, hinv2, _, hchan, _, _⟩ :=
      startLoop_step e fuel channel rest hmax hinv (hfresh channel (List.mem_cons_self _ _))
    obtain ⟨t3, h3, hi3, hc3⟩ := ih (channel :: seen) count2 _ t2 hinv2 hnd.2 (by
      intro x hx hmem
      rcases List.mem_cons.mp hmem with h | h
      · exact hnd.1 (h ▸ hx)
      · exact hfresh x (List.mem_cons_of_mem _ hx) h)
    exact ⟨t3, by rw [heq, h3], hi3, by rw [hc3, hchan]⟩

theorem loose_prep {max count chatID : Nat} {t : TwitchLogger} (hmax : 0 < max)
    (hinv : LooseInv max count chatID t) :
    PoolInv max
        (if (t.chats.lookup (if count = max then chatID + 1 else chatID)).isNone
          then (startNewChat (if count = max then chatID + 1 else chatID) t).2 else t) ∧
      1 ≤ (if count = max then chatID + 1 else chatID) ∧
      (if count = max then chatID + 1 else chatID) ≤
        (if (t.chats.lookup (if count = max then chatID + 1 else chatID)).isNone
          then (startNewChat (if count = max then chatID + 1 else chatID) t).2
          else t).chats.length ∧
      (if (t.chats.lookup (if count = max then chatID + 1 else chatID)).isNone
          then (startNewChat (if count = max then chatID + 1 else chatID) t).2 else t).channels
        = t.channels := by
  obtain ⟨hi, hcase⟩ := hinv
  rcases hcase with ⟨hnil, hid, hcount⟩ | ⟨h1, h2⟩
  · subst hid hcount
    have hne : ¬ (0 = max) := by omega
    simp only [if_neg hne, hnil, List.lookup_nil, Option.isNone_none, if_true, startNewChat]
    have := fresh_poolInv hi
    rw [hnil] at this
    exact ⟨this, by omega, by simp, trivial⟩
  · generalize hid : (if count = max then chatID + 1 else chatID) = chatID1
    have hb1 : 1 ≤ chatID1 := by rw [← hid]; split <;> omega
    have hb2 : chatID1 ≤ t.chats.length + 1 := by rw [← hid]; split <;> omega
    by_cases hle : chatID1 ≤ t.chats.length
    · obtain ⟨c, hc⟩ := hi.1.lookup hb1 hle
      simp only [hc, Option.isNone_some]
      exact ⟨hi, hb1, hle, rfl⟩
    · have heq : chatID1 = t.chats.length + 1 := by omega
      have hnone : t.chats.lookup chatID1 = none := hi.1.lookup_none (by omega)
      simp only [hnone, Option.isNone_none, if_true, startNewChat]
      subst heq
      exact ⟨fresh_poolInv hi, hb1, by simp, trivial⟩

theorem loose_step (e : Env) (fuel : Nat) (channel : String) (rest : List String)
    {count chatID : Nat} {t : TwitchLogger} (hmax : 0 < e.MaxChannelsPerChat)
    (hinv : LooseInv e.MaxChannelsPerChat count chatID t) :
    ∃ count2 t2,
      startLoop e (fuel + 4) (channel :: rest) count chatID t =
        startLoop e (fuel + 4) rest count2
          (if count = e.MaxChannelsPerChat then chatID + 1 else chatID) t2 ∧
      LooseInv e.MaxChannelsPerChat count2
        (if count = e.MaxChannelsPerChat then chatID + 1 else chatID) t2 ∧
      t2.channels = t.channels := by
  obtain ⟨hi1, hb1, hb2, hchan⟩ := loose_prep hmax hinv
  rw [startLoop_cons]
  generalize (if count = e.MaxChannelsPerChat then chatID + 1 else chatID) = chatID1 at *
  generalize (if count = e.MaxChannelsPerChat then 0 else count) = count1 at *
  generalize (if (t.chats.lookup chatID1).isNone then (startNewChat chatID1 t).2 else t) = t1 at *
  obtain ⟨err, t2, hj, hc2⟩ := join_false_ret e fuel channel hi1.1
  obtain ⟨hi2, hlen2⟩ := join_poolInv e fuel channel false hmax hi1 (by rw [hj]; rfl)
  rw [hj]
  cases err with
  | none =>
    exact ⟨count1 + 1, t2, rfl, ⟨hi2, Or.inr ⟨hb1, by omega⟩⟩, by rw [hc2, hchan]⟩
  | some er =>
    exact ⟨count1, t2, rfl, ⟨hi2, Or.inr ⟨hb1, by omega⟩⟩, by rw [hc2, hchan]⟩

theorem startLoop_loose (e : Env) (fuel : Nat) (hmax : 0 < e.MaxChannelsPerChat) :
    ∀ (rest : List String) (count chatID : Nat) (t : TwitchLogger),
      LooseInv e.MaxChannelsPerChat count chatID t →
      ∃ t2, startLoop e (fuel + 4) rest count chatID t = .ret () t2 ∧
        PoolInv e.MaxChannelsPerChat t2 ∧ t2.channels = t.channels := by
  intro rest
  induction rest with
  | nil =>
    intro count chatID t hinv
    exact ⟨t, rfl, hinv.1, rfl⟩
  | cons channel rest ih =>
    intro count chatID t hinv
    obtain ⟨count2, t2, heq, hinv2, hchan⟩ := loose_step e fuel channel rest hmax hinv
    obtain ⟨t3, h3, hi3, hc3⟩ := ih count2 _ t2 hinv2
    exact ⟨t3, by rw [heq, h3], hi3, by rw [hc3, hchan]⟩

/-! ## `Start` when every `Join` succeeds -/

theorem div_of_lt {max r : Nat} (a : Nat) (hr : r < max) : (a * max + r) / max = a := by
  have hmax : 0 < max := by omega
  rw [Nat.add_comm, Nat.add_mul_div_right _ _ hmax, Nat.div_eq_of_lt hr, Nat.zero_add]

theorem startLoop_all (e : Env) (fuel : Nat) (hmax : 0 < e.MaxChannelsPerChat)
    (hall : ∀ k, e.joinErr k = none) :
    ∀ (rest seen : List String) (count a : Nat) (t : TwitchLogger) (k : Nat),
      StartInv e.MaxChannelsPerChat seen count (a + 1) t →
      rest.Nodup → (∀ x ∈ rest, x ∉ seen) →
      a * e.MaxChannelsPerChat + count = k →
      (0 < k → 1 ≤ count ∧ t.chats.length = a + 1) →
      (k = 0 → t.chats = []) →
      ∃ t2, startLoop e (fuel + 4) rest count (a + 1) t = .ret () t2 ∧
        t2.joinLog = t.joinLog ++
          (rest.enumFrom k).map (fun p => (p.1 / e.MaxChannelsPerChat + 1, p.2, true)) ∧
        t2.chats.length = (k + rest.length + e.MaxChannelsPerChat - 1) / e.MaxChannelsPerChat ∧
        ShardInv e.MaxChannelsPerChat t2 ∧ t2.channels = t.channels := by
  intro rest
  induction rest with
  | nil =>
    intro seen count a t k hinv _ _ hk hpos hzero
    refine ⟨t, rfl, by simp, ?_, hinv.1, rfl⟩
    rcases Nat.eq_zero_or_pos k with h0 | h0
    · rw [hzero h0, h0]
      simp only [List.length_nil, Nat.add_zero, Nat.zero_add]
      rw [Nat.div_eq_of_lt (by omega)]
    · obtain ⟨h1, h2⟩ := hpos h0
      have hle := hinv.2.1
      rw [h2, ← hk]
      simp only [List.length_nil, Nat.add_zero]
      have : a * e.MaxChannelsPerChat + count + e.MaxChannelsPerChat - 1
          = (a + 1) * e.MaxChannelsPerChat + (count - 1) := by
        rw [Nat.succ_mul]; omega
      rw [this, div_of_lt (a + 1) (by omega)]
  | cons channel rest ih =>
    intro seen count a t k hinv hnd hfresh hk hpos hzero
    have hle := hinv.2.1
    rw [List.nodup_cons] at hnd
    have hfresh2 : ∀ x ∈ rest, x ∉ channel :: seen := by
      intro x hx hmem
      rcases List.mem_cons.mp hmem with h | h
      · exact hnd.1 (h ▸ hx)
      · exact hfresh x (List.mem_cons_of_mem _ hx) h
    obtain ⟨count2, t2, heq, hinv2, hlen2, hchan, _, hfirst⟩ :=
      startLoop_step e fuel channel rest hmax hinv (hfresh channel (List.mem_cons_self _ _))
    obtain ⟨hc2, hl2⟩ := hfirst (hall _)
    by_cases hcm : count = e.MaxChannelsPerChat
    · simp only [if_pos hcm] at heq hinv2 hlen2 hc2 hl2
      have hk2 : (a + 1) * e.MaxChannelsPerChat + count2 = k + 1 := by
        rw [Nat.succ_mul]; omega
      obtain ⟨t3, h3, hlog3, hlen3, hi3, hc3⟩ :=
        ih (channel :: seen) count2 (a + 1) t2 (k + 1) hinv2 hnd.2 hfresh2 hk2 (fun _ => ⟨by omega, hlen2⟩) (by omega)
      refine ⟨t3, by rw [heq, h3], ?_, ?_, hi3, by rw [hc3, hchan]⟩
      · rw [hlog3, hl2, List.enumFrom_cons, List.map_cons, List.append_assoc]
        have : k / e.MaxChannelsPerChat = a + 1 := by
          have : k = (a + 1) * e.MaxChannelsPerChat + 0 := by rw [Nat.succ_mul]; omega
          rw [this, div_of_lt (a + 1) hmax]
        simp [this]
      · rw [hlen3]
        congr 1
        simp only [List.length_cons]
        omega
    · simp only [if_neg hcm] at heq hinv2 hlen2 hc2 hl2
      have hk2 : a * e.MaxChannelsPerChat + count2 = k + 1 := by omega
      obtain ⟨t3, h3, hlog3, hlen3, hi3, hc3⟩ :=
        ih (channel :: seen) count2 a t2 (k + 1) hinv2 hnd.2 hfresh2 hk2 (fun _ => ⟨by omega, hlen2⟩) (by omega)
      refine ⟨t3, by rw [heq, h3], ?_, ?_, hi3, by rw [hc3, hchan]⟩
      · rw [hlog3, hl2, List.enumFrom_cons, List.map_cons, List.append_assoc]
        have : k / e.MaxChannelsPerChat = a := by
          rw [← hk, div_of_lt a (by omega)]
        simp [this]
      · rw [hlen3]
        congr 1
        simp only [List.length_cons]
        omega

theorem newLogger_poolInv (max : Nat) (admins : List String) (commandChannel : String)
    (file : List String) : PoolInv max (NewTwitchLogger admins commandChannel file) := by
  refine ⟨rfl, ?_, rfl⟩
  intro p hp; cases hp

theorem newLogger_startInv (max : Nat) (admins : List String) (commandChannel : String)
    (file : List String) : StartInv max [] 0 1 (NewTwitchLogger admins commandChannel file) := by
  refine ⟨⟨newLogger_poolInv max admins commandChannel file, ?_⟩, Nat.zero_le _, ?_,
    Or.inl ⟨rfl, rfl, rfl⟩⟩
  · intro s hs; cases hs
  · intro p hp; cases hp

theorem newLogger_looseInv (max : Nat) (admins : List String) (commandChannel : String)
    (file : List String) : LooseInv max 0 1 (NewTwitchLogger admins commandChannel file) :=
  ⟨newLogger_poolInv max admins commandChannel file, Or.inl ⟨rfl, rfl, rfl⟩⟩

theorem newLogger_channels (admins : List String) (commandChannel : String)
    (file : List String) :
    (NewTwitchLogger admins commandChannel file).channels = sortStrings file := rfl

theorem Acquired.lowest {max : Nat} {t t1 : TwitchLogger} {id i : Nat} {c : Twitch}
    (ha : Acquired max t id t1) (hc : t.chats.lookup i = some c)
    (hroom : c.channels.length < max)
    (hlow : ∀ p ∈ t.chats, p.1 < i → max ≤ p.2.channels.length) :
    id = i ∧ t1 = t := by
  have hmem : (i, c) ∈ t.chats := lookup_mem hc
  cases ha with
  | existing i1 c1 hc1 hroom1 hlow1 =>
    have h1 : ¬ i < id := by
      intro hlt
      have := hlow1 (i, c) hmem hlt
      simp at this
      omega
    have h2 : ¬ id < i := by
      intro hlt
      have := hlow (id, c1) (lookup_mem hc1) hlt
      simp at this
      omega
    exact ⟨by omega, rfl⟩
  | fresh hfull =>
    have := hfull (i, c) hmem
    simp at this
    omega

theorem Start_returns (e : Env) (fuel : Nat) (hmax : 0 < e.MaxChannelsPerChat)
    (admins : List String) (commandChannel : String) (file : List String) :
    ∃ t, Start e (fuel + 4) (NewTwitchLogger admins commandChannel file) = .ret () t ∧
      PoolInv e.MaxChannelsPerChat t ∧ (file.Nodup → StartedFull e.MaxChannelsPerChat t) := by
  obtain ⟨t2, h2, hi, _⟩ := startLoop_loose e fuel hmax
    (NewTwitchLogger admins commandChannel file).channels 0 1 _
    (newLogger_looseInv _ admins commandChannel file)
  refine ⟨t2, by unfold Start; exact h2, hi, ?_⟩
  intro hnd
  obtain ⟨t3, h3, hi3, _⟩ := startLoop_inv e fuel hmax
    (NewTwitchLogger admins commandChannel file).channels [] 0 1 _
    (newLogger_startInv _ admins commandChannel file)
    (by rw [newLogger_channels]; exact (sortStrings_perm file).nodup_iff.mpr hnd)
    (fun _ _ h => by cases h)
  rw [h2] at h3
  cases h3
  exact hi3.2

theorem Reachable.pool {max : Nat} {file : List String} {t : TwitchLogger} (hmax : 0 < max)
    (hr : Reachable max file t) : PoolInv max t := by
  induction hr with
  | start e fuel admins commandChannel t he hfuel h =>
    obtain ⟨f, rfl⟩ : ∃ f, fuel = f + 4 := ⟨fuel - 4, by omega⟩
    subst he
    obtain ⟨t2, h2, hi, _⟩ := Start_returns e f hmax admins commandChannel file
    rw [h2] at h
    cases h
    exact hi
  | join e fuel ch init t t2 err he hfuel _ h ih =>
    obtain ⟨f, rfl⟩ : ∃ f, fuel = f + 4 := ⟨fuel - 4, by omega⟩
    subst he
    exact (join_poolInv e f ch init hmax ih (by rw [h]; rfl)).1

theorem Reachable.shardInv {max : Nat} {file : List String} {t : TwitchLogger} (hmax : 0 < max)
    (hnd : file.Nodup) (hr : Reachable max file t) : ShardInv max t := by
  induction hr with
  | start e fuel admins commandChannel t he hfuel h =>
    obtain ⟨f, rfl⟩ : ∃ f, fuel = f + 4 := ⟨fuel - 4, by omega⟩
    subst he
    obtain ⟨t2, h2, hi, hs⟩ := Start_returns e f hmax admins commandChannel file
    rw [h2] at h
    cases h
    exact ⟨hi, hs hnd⟩
  | join e fuel ch init t t2 err he hfuel _ h ih =>
    obtain ⟨f, rfl⟩ : ∃ f, fuel = f + 4 := ⟨fuel - 4, by omega⟩
    subst he
    exact join_inv e f ch init hmax ih (by rw [h]; rfl)
/-! ## The outcomes of `join`, whatever the pool -/

theorem joinAgain_nil (e : Env) (ch : String) (fuel retrys : Nat) (t : TwitchLogger) :
    joinAgain e ch none (fuel + 1) retrys t = .panic t := by
  simp [joinAgain, callJoin]

theorem joinCore_shape (e : Env) (fuel : Nat) (ch : String) (init : Bool) (t : TwitchLogger) :
    joinCore e (fuel + 4) ch init t = .panic t ∨
      ∃ id t1, t1.joinLog = t.joinLog ∧ t1.channels = t.channels ∧
        t1.createLog = t.createLog ∧
        joinCore e (fuel + 4) ch init t = joinTail e ch init (attempts e id ch 7 t1) := by
  cases hpick : joinPick e.MaxChannelsPerChat t.chats t.chats.length 1 with
  | nilChat =>
    left
    unfold joinCore
    rw [hpick]
  | found i =>
    right
    refine ⟨i, t, rfl, rfl, rfl, ?_⟩
    unfold joinCore
    rw [hpick]
    exact joinAgain_eq e ch i init fuel t
  | notFound =>
    cases hl : t.chats.lookup (t.chats.length + 1) with
    | some c =>
      left
      unfold joinCore
      rw [hpick]
      simp only [startNewChat, hl, joinAgain_nil]
    | none =>
      right
      refine ⟨t.chats.length + 1,
        { t with
          chats := t.chats ++ [(t.chats.length + 1, { channels := [] })]
          started := t.started ++ [(t.chats.length + 1, t.chats)] }, rfl, rfl, rfl, ?_⟩
      unfold joinCore
      rw [hpick]
      simp only [startNewChat, hl]
      exact joinAgain_eq e ch (t.chats.length + 1) init fuel _

theorem join_shape (e : Env) (fuel : Nat) (ch : String) (init : Bool) (t : TwitchLogger) :
    (∃ t0, Checked ch t t0 ∧
      (join e (fuel + 4) ch init t = .panic t0 ∨
        join e (fuel + 4) ch init t = .ret (some .errAlreadyInChannel) t0 ∨
        join e (fuel + 4) ch init t = .ret (some .errChannelNotValid) t0)) ∨
    (∃ t0 id t1, Checked ch t t0 ∧ t1.joinLog = t0.joinLog ∧ t1.channels = t0.channels ∧
      t1.createLog = t0.createLog ∧
      (init = true → inSlice e t.channels ch = false) ∧
      join e (fuel + 4) ch init t = joinTail e ch init (attempts e id ch 7 t1)) := by
  have core : ∀ t0, Checked ch t t0 → (init = true → inSlice e t.channels ch = false) →
      join e (fuel + 4) ch init t = joinCore e (fuel + 4) ch init t0 →
      (∃ t0, Checked ch t t0 ∧
        (join e (fuel + 4) ch init t = .panic t0 ∨
          join e (fuel + 4) ch init t = .ret (some .errAlreadyInChannel) t0 ∨
          join e (fuel + 4) ch init t = .ret (some .errChannelNotValid) t0)) ∨
      (∃ t0 id t1, Checked ch t t0 ∧ t1.joinLog = t0.joinLog ∧ t1.channels = t0.channels ∧
        t1.createLog = t0.createLog ∧
        (init = true → inSlice e t.channels ch = false) ∧
        join e (fuel + 4) ch init t = joinTail e ch init (attempts e id ch 7 t1)) := by
    intro t0 hck hin hj
    rcases joinCore_shape e fuel ch init t0 with h | ⟨id, t1, h1, h2, h3, h4⟩
    · left
      exact ⟨t0, hck, Or.inl (by rw [hj, h])⟩
    · right
      exact ⟨t0, id, t1, hck, h1, h2, h3, hin, by rw [hj, h4]⟩
  cases init with
  | false => exact core t (Or.inl rfl) (by simp) (join_false e _ ch t)
  | true =>
    by_cases hin : inSlice e t.channels ch = true
    · left
      exact ⟨t, Or.inl rfl, Or.inr (Or.inl (by simp [join, hin]))⟩
    · have hin2 : inSlice e t.channels ch = false := by simpa using hin
      by_cases hurl : e.urlOk ch = true
      · cases hst : e.httpStatus t.existsLog.length with
        | none =>
          left
          exact ⟨_, Or.inr rfl, Or.inl (by simp [join, hin2, channelExists, hurl, hst])⟩
        | some code =>
          by_cases hcode : code = 200
          · exact core _ (Or.inr rfl) (fun _ => hin2)
              (by simp [join, hin2, channelExists, hurl, hst, hcode])
          · left
            have hb : (code == 200) = false := by simpa using hcode
            exact ⟨_, Or.inr rfl,
              Or.inr (Or.inr (by simp [join, hin2, channelExists, hurl, hst, hb]))⟩
      · left
        exact ⟨t, Or.inl rfl, Or.inl (by simp [join, hin2, channelExists, hurl])⟩

theorem Checked.joinLog {ch : String} {t t0 : TwitchLogger} (h : Checked ch t t0) :
    t0.joinLog = t.joinLog ∧ t0.channels = t.channels ∧ t0.createLog = t.createLog ∧
      t0.chats = t.chats := by
  rcases h with rfl | rfl <;> exact ⟨rfl, rfl, rfl, rfl⟩

/-! ## The roster -/

theorem EqualFold_comm (e : Env) (a b : String) : EqualFold e a b = EqualFold e b a := by
  unfold EqualFold
  by_cases h : e.fold a = e.fold b
  · simp [h]
  · have h2 : ¬ e.fold b = e.fold a := fun h3 => h h3.symm
    simp [h, h2]

theorem inSlice_eq_false_iff (e : Env) (l : List String) (v : String) :
    inSlice e l v = false ↔ ∀ x ∈ l, EqualFold e v x = false := by
  induction l with
  | nil => simp [inSlice]
  | cons sv s ih =>
    simp only [inSlice, List.mem_cons, forall_eq_or_imp]
    cases h : EqualFold e v sv with
    | true => simp
    | false => simpa using ih

theorem inSlice_eq_true_iff (e : Env) (l : List String) (v : String) :
    inSlice e l v = true ↔ ∃ x ∈ l, EqualFold e v x = true := by
  induction l with
  | nil => simp [inSlice]
  | cons sv s ih =>
    simp only [inSlice, List.mem_cons, exists_eq_or_imp]
    cases h : EqualFold e v sv with
    | true => simp
    | false => simpa using ih

theorem removeFirst_sublist (e : Env) :
    ∀ (l : List String) (ch : String) (r : List String),
      removeFirst e l ch = some r → r.Sublist l := by
  intro l
  induction l with
  | nil => intro ch r h; simp [removeFirst] at h
  | cons channel rest ih =>
    intro ch r h
    simp only [removeFirst] at h
    by_cases hf : EqualFold e channel ch = true
    · rw [if_pos hf] at h
      cases h
      exact List.sublist_cons_self _ _
    · rw [if_neg hf] at h
      cases hr : removeFirst e rest ch with
      | none => rw [hr] at h; cases h
      | some r2 =>
        rw [hr] at h
        cases h
        exact (ih ch r2 hr).cons₂ _

theorem removeFirst_of_inSlice (e : Env) (l : List String) (ch : String)
    (h : inSlice e l ch = true) :
    ∃ r, removeFirst e l ch = some r := by
  induction l with
  | nil => simp [inSlice] at h
  | cons channel rest ih =>
    simp only [removeFirst]
    by_cases hf : EqualFold e channel ch = true
    · exact ⟨rest, by rw [if_pos hf]⟩
    · rw [if_neg hf]
      have hf2 : EqualFold e ch channel = false := by
        rw [EqualFold_comm]; simpa using hf
      simp only [inSlice, hf2] at h
      obtain ⟨r, hr⟩ := ih (by simpa using h)
      exact ⟨channel :: r, by rw [hr]; rfl⟩

theorem NoDupFold.perm {e : Env} {l l2 : List String} (h : NoDupFold e l) (hp : l2.Perm l) :
    NoDupFold e l2 := by
  unfold NoDupFold at *
  refine (List.Perm.pairwise_iff ?_ hp).mpr h
  intro a b hab
  rw [EqualFold_comm]
  exact hab

theorem NoDupFold.sublist {e : Env} {l l2 : List String} (h : NoDupFold e l) (hs : l2.Sublist l) :
    NoDupFold e l2 :=
  List.Pairwise.sublist hs h

theorem NoDupFold.concat {e : Env} {l : List String} {ch : String} (h : NoDupFold e l)
    (hin : inSlice e l ch = false) : NoDupFold e (l ++ [ch]) := by
  unfold NoDupFold at *
  rw [List.pairwise_append]
  refine ⟨h, List.pairwise_singleton _ _, ?_⟩
  intro a ha b hb
  rw [List.mem_singleton] at hb
  subst hb
  rw [EqualFold_comm]
  exact (inSlice_eq_false_iff e l b).mp hin a ha

theorem sortStrings_sorted (l : List String) : (sortStrings l).Sorted (· ≤ ·) := by
  have h1 : IsTotal String (fun a b => a.data ≤ b.data) :=
    ⟨fun a b => by
      rcases le_total a b with h | h
      · exact Or.inl (String.le_iff_toList_le.mp h)
      · exact Or.inr (String.le_iff_toList_le.mp h)⟩
  have h2 : IsTrans String (fun a b => a.data ≤ b.data) :=
    ⟨fun a b c hab hbc =>
      String.le_iff_toList_le.mp
        (le_trans (String.le_iff_toList_le.mpr hab) (String.le_iff_toList_le.mpr hbc))⟩
  have := List.sorted_insertionSort (fun (a b : String) => a.data ≤ b.data) l
  exact List.Pairwise.imp (fun hab => String.le_iff_toList_le.mpr hab) this

/-! ## The loop of `leave` -/

theorem leaveLoop_spec (e : Env) (ch : String) :
    ∀ (order : List Nat) (err : Option Err) (t : TwitchLogger),
      ∃ calls : List (Nat × String × Bool),
        (leaveLoop e ch order err t).2.leaveLog = t.leaveLog ++ calls ∧
        (leaveLoop e ch order err t).2.channels = t.channels ∧
        (leaveLoop e ch order err t).2.createLog = t.createLog ∧
        ((∀ p ∈ calls, p.2.2 = false) →
          (leaveLoop e ch order err t).2.chats = t.chats ∧
          (calls = [] →
            (leaveLoop e ch order err t).1 = err ∧ ∀ i ∈ order, t.chats.lookup i = none) ∧
          (calls ≠ [] →
            ∃ msg, e.leaveErr (t.leaveLog.length + calls.length - 1) = some msg ∧
              (leaveLoop e ch order err t).1 = some (.external msg))) ∧
        ((∃ p ∈ calls, p.2.2 = true) → (leaveLoop e ch order err t).1 = none) := by
  intro order
  induction order with
  | nil =>
    intro err t
    refine ⟨[], by simp [leaveLoop], rfl, rfl, ?_, ?_⟩
    · intro _
      exact ⟨rfl, fun _ => ⟨rfl, fun i hi => by cases hi⟩, fun h => absurd rfl h⟩
    · rintro ⟨p, hp, _⟩
      cases hp
  | cons i rest ih =>
    intro err t
    cases hl : t.chats.lookup i with
    | none =>
      have heq : leaveLoop e ch (i :: rest) err t = leaveLoop e ch rest err t := by
        simp [leaveLoop, hl]
      rw [heq]
      obtain ⟨calls, h1, h2, h3, h4, h5⟩ := ih err t
      refine ⟨calls, h1, h2, h3, ?_, h5⟩
      intro hall
      obtain ⟨h6, h7, h8⟩ := h4 hall
      refine ⟨h6, fun hc => ⟨(h7 hc).1, ?_⟩, h8⟩
      intro j hj
      rcases List.mem_cons.mp hj with rfl | hj
      · exact hl
      · exact (h7 hc).2 j hj
    | some c =>
      cases hle : e.leaveErr t.leaveLog.length with
      | none =>
        have heq : leaveLoop e ch (i :: rest) err t =
            (none, { t with
              chats := updateChat i (fun c => { c with channels := c.channels.erase ch }) t.chats
              leaveLog := t.leaveLog ++ [(i, ch, true)] }) := by
          simp [leaveLoop, hl, Twitch.Leave, hle]
        rw [heq]
        refine ⟨[(i, ch, true)], rfl, rfl, rfl, ?_, fun _ => rfl⟩
        intro hall
        have := hall (i, ch, true) (List.mem_singleton.mpr rfl)
        simp at this
      | some msg =>
        have heq : leaveLoop e ch (i :: rest) err t =
            leaveLoop e ch rest (some (.external msg))
              { t with leaveLog := t.leaveLog ++ [(i, ch, false)] } := by
          simp [leaveLoop, hl, Twitch.Leave, hle]
        rw [heq]
        obtain ⟨calls, h1, h2, h3, h4, h5⟩ :=
          ih (some (.external msg)) { t with leaveLog := t.leaveLog ++ [(i, ch, false)] }
        refine ⟨(i, ch, false) :: calls, by rw [h1]; simp, h2, h3, ?_, ?_⟩
        · intro hall
          have hall2 : ∀ p ∈ calls, p.2.2 = false :=
            fun p hp => hall p (List.mem_cons_of_mem _ hp)
          obtain ⟨h6, h7, h8⟩ := h4 hall2
          refine ⟨h6, fun hc => absurd hc (List.cons_ne_nil _ _), fun _ => ?_⟩
          by_cases hc : calls = []
          · refine ⟨msg, ?_, (h7 hc).1⟩
            rw [hc]
            simpa using hle
          · obtain ⟨msg2, h9, h10⟩ := h8 hc
            refine ⟨msg2, ?_, h10⟩
            simp only [List.length_append, List.length_singleton, List.length_cons] at h9 ⊢
            have hpos : 0 < calls.length := List.length_pos.mpr hc
            rw [show t.leaveLog.length + (calls.length + 1) - 1
              = t.leaveLog.length + 1 + calls.length - 1 by omega]
            exact h9
        · rintro ⟨p, hp, htrue⟩
          rcases List.mem_cons.mp hp with rfl | hp
          · simp at htrue
          · exact h5 ⟨p, hp, htrue⟩

theorem order_visits {order : List Nat} {chats : List (Nat × Twitch)} (hne : chats ≠ [])
    (hord : order.Perm (chats.map Prod.fst)) : ∃ i ∈ order, chats.lookup i ≠ none := by
  cases chats with
  | nil => exact absurd rfl hne
  | cons p rest =>
    refine ⟨p.1, hord.mem_iff.mpr (by simp), ?_⟩
    obtain ⟨k, c⟩ := p
    simp

/-! ## The routing of messages -/

theorem sendAll_getElem? (m : Message) :
    ∀ (ls : List Chan) (i : Nat), (sendAll m ls)[i]? = ls[i]?.map (fun l => trySend l m) := by
  intro ls
  induction ls with
  | nil => intro i; simp [sendAll]
  | cons l ls ih =>
    intro i
    cases i with
    | zero => simp [sendAll]
    | succ i => simpa [sendAll] using ih i

theorem sendAll_length (m : Message) (ls : List Chan) : (sendAll m ls).length = ls.length := by
  induction ls with
  | nil => rfl
  | cons l ls ih => simp [sendAll, ih]

theorem takeAt_getElem? :
    ∀ (ls : List Chan) (i j : Nat),
      (takeAt i ls)[j]? = if j = i then ls[j]?.map Chan.take else ls[j]? := by
  intro ls
  induction ls with
  | nil => intro i j; simp [takeAt]
  | cons l ls ih =>
    intro i j
    cases i with
    | zero =>
      cases j with
      | zero => simp [takeAt]
      | succ j => simp [takeAt]
    | succ i =>
      cases j with
      | zero => simp [takeAt]
      | succ j => simpa [takeAt] using ih i j

theorem trySend_received (q : Chan) (m : Message) :
    ∃ acc, acc.Sublist [m] ∧ (trySend q m).received = q.received ++ acc := by
  unfold trySend
  split
  · exact ⟨[m], List.Sublist.refl _, rfl⟩
  · exact ⟨[], List.nil_sublist _, by simp⟩

theorem msgHandler_logCh_congr :
    ∀ (evs : List Event) (r r2 : Routing), r2.logCh = r.logCh →
      (msgHandler evs r2).logCh = (msgHandler evs r).logCh := by
  intro evs
  induction evs with
  | nil => intro r r2 h; exact h
  | cons ev evs ih =>
    intro r r2 h
    cases ev with
    | inbound m =>
      simp only [msgHandler]
      exact ih _ _ (by simp [msgHandlerStep, h])
    | sinkTakes =>
      simp only [msgHandler]
      exact ih _ _ (by simp [h])
    | listenerTakes i =>
      simp only [msgHandler]
      exact ih _ _ h

theorem msgHandler_listener_congr (i : Nat) :
    ∀ (evs : List Event) (r r2 : Routing), r2.t.listeners[i]? = r.t.listeners[i]? →
      (msgHandler evs r2).t.listeners[i]? = (msgHandler evs r).t.listeners[i]? := by
  intro evs
  induction evs with
  | nil => intro r r2 h; exact h
  | cons ev evs ih =>
    intro r r2 h
    cases ev with
    | inbound m =>
      simp only [msgHandler]
      exact ih _ _ (by simp [msgHandlerStep, sendAll_getElem?, h])
    | sinkTakes =>
      simp only [msgHandler]
      exact ih _ _ h
    | listenerTakes j =>
      simp only [msgHandler]
      exact ih _ _ (by simp [takeAt_getElem?, h])

theorem msgHandler_logCh_order :
    ∀ (evs : List Event) (r : Routing),
      ∃ acc, acc.Sublist (inbounds evs) ∧
        (msgHandler evs r).logCh.received = r.logCh.received ++ acc := by
  intro evs
  induction evs with
  | nil => intro r; exact ⟨[], List.Sublist.refl _, by simp [msgHandler]⟩
  | cons ev evs ih =>
    intro r
    cases ev with
    | inbound m =>
      obtain ⟨acc, h1, h2⟩ := ih (msgHandlerStep m r)
      obtain ⟨a0, h3, h4⟩ := trySend_received r.logCh m
      refine ⟨a0 ++ acc, ?_, ?_⟩
      · exact List.Sublist.append h3 h1
      · simp only [msgHandler]
        rw [h2]
        show (trySend r.logCh m).received ++ acc = _
        rw [h4, List.append_assoc]
    | sinkTakes =>
      obtain ⟨acc, h1, h2⟩ := ih { r with logCh := r.logCh.take }
      exact ⟨acc, h1, by simp only [msgHandler]; rw [h2]; rfl⟩
    | listenerTakes i =>
      obtain ⟨acc, h1, h2⟩ :=
        ih { r with t := { r.t with listeners := takeAt i r.t.listeners } }
      exact ⟨acc, h1, by simp only [msgHandler]; rw [h2]⟩

theorem msgHandler_listener_order (i : Nat) :
    ∀ (evs : List Event) (r : Routing) (q : Chan), r.t.listeners[i]? = some q →
      ∃ q2 acc, (msgHandler evs r).t.listeners[i]? = some q2 ∧
        acc.Sublist (inbounds evs) ∧ q2.received = q.received ++ acc := by
  intro evs
  induction evs with
  | nil => intro r q h; exact ⟨q, [], h, List.Sublist.refl _, by simp⟩
  | cons ev evs ih =>
    intro r q h
    cases ev with
    | inbound m =>
      have hq : (msgHandlerStep m r).t.listeners[i]? = some (trySend q m) := by
        simp [msgHandlerStep, sendAll_getElem?, h]
      obtain ⟨q2, acc, h1, h2, h3⟩ := ih (msgHandlerStep m r) _ hq
      obtain ⟨a0, h4, h5⟩ := trySend_received q m
      exact ⟨q2, a0 ++ acc, h1, List.Sublist.append h4 h2,
        by rw [h3, h5, List.append_assoc]⟩
    | sinkTakes =>
      obtain ⟨q2, acc, h1, h2, h3⟩ := ih { r with logCh := r.logCh.take } q h
      exact ⟨q2, acc, h1, h2, h3⟩
    | listenerTakes j =>
      by_cases hji : i = j
      · have hq : ({ r with t := { r.t with listeners := takeAt j r.t.listeners } } :
            Routing).t.listeners[i]? = some q.take := by
          simp [takeAt_getElem?, hji ▸ h, hji]
        obtain ⟨q2, acc, h1, h2, h3⟩ := ih _ _ hq
        exact ⟨q2, acc, h1, h2, h3⟩
      · have hq : ({ r with t := { r.t with listeners := takeAt j r.t.listeners } } :
            Routing).t.listeners[i]? = some q := by
          simp [takeAt_getElem?, h, hji]
        obtain ⟨q2, acc, h1, h2, h3⟩ := ih _ _ hq
        exact ⟨q2, acc, h1, h2, h3⟩


/-! ## The router against the bounded queue of the spec -/

theorem msgHandler_logCh_refines :
    ∀ (evs : List Event) (r : Routing),
      (msgHandler evs r).logCh = boundedQueue (sinkEvents evs) r.logCh := by
  intro evs
  induction evs with
  | nil => intro r; rfl
  | cons ev evs ih =>
    intro r
    cases ev with
    | inbound m => exact ih (msgHandlerStep m r)
    | sinkTakes => exact ih { r with logCh := r.logCh.take }
    | listenerTakes j =>
      exact ih { r with t := { r.t with listeners := takeAt j r.t.listeners } }

theorem msgHandler_listener_refines (i : Nat) :
    ∀ (evs : List Event) (r : Routing),
      (msgHandler evs r).t.listeners[i]? =
        r.t.listeners[i]?.map (boundedQueue (listenerEvents i evs)) := by
  intro evs
  induction evs with
  | nil =>
    intro r
    show r.t.listeners[i]? = r.t.listeners[i]?.map (fun q => q)
    simp
  | cons ev evs ih =>
    intro r
    cases ev with
    | inbound m =>
      show (msgHandler evs (msgHandlerStep m r)).t.listeners[i]? = _
      rw [ih]
      show (sendAll m r.t.listeners)[i]?.map _ = _
      rw [sendAll_getElem?, Option.map_map]
      rfl
    | sinkTakes =>
      show (msgHandler evs { r with logCh := r.logCh.take }).t.listeners[i]? = _
      rw [ih]
      rfl
    | listenerTakes j =>
      show (msgHandler evs
        { r with t := { r.t with listeners := takeAt j r.t.listeners } }).t.listeners[i]? = _
      rw [ih]
      show (takeAt j r.t.listeners)[i]?.map _ = _
      rw [takeAt_getElem?]
      by_cases hji : j = i
      · subst hji
        simp only [if_true, listenerEvents, Option.map_map]
        rfl
      · have hij : ¬ i = j := fun h => hji h.symm
        simp only [if_neg hij, listenerEvents, if_neg hji]

theorem offered_sinkEvents : ∀ evs : List Event, offered (sinkEvents evs) = inbounds evs := by
  intro evs
  induction evs with
  | nil => rfl
  | cons ev evs ih =>
    cases ev with
    | inbound m => simp [sinkEvents, offered, inbounds, ih]
    | sinkTakes => simp [sinkEvents, offered, inbounds, ih]
    | listenerTakes j => simp [sinkEvents, offered, inbounds, ih]

theorem offered_listenerEvents (i : Nat) :
    ∀ evs : List Event, offered (listenerEvents i evs) = inbounds evs := by
  intro evs
  induction evs with
  | nil => rfl
  | cons ev evs ih =>
    cases ev with
    | inbound m => simp [listenerEvents, offered, inbounds, ih]
    | sinkTakes => simp [listenerEvents, offered, inbounds, ih]
    | listenerTakes j =>
      by_cases hji : j = i <;> simp [listenerEvents, offered, inbounds, ih, hji]

theorem boundedQueue_room :
    ∀ (es : List QEvent) (q : Chan), q.buf.length + (offered es).length ≤ q.cap →
      (boundedQueue es q).received = q.received ++ offered es := by
  intro es
  induction es with
  | nil => intro q _; simp [boundedQueue, offered]
  | cons ev es ih =>
    intro q h
    cases ev with
    | offer m =>
      simp only [offered, List.length_cons] at h
      have hlt : q.buf.length < q.cap := by omega
      simp only [boundedQueue, if_pos hlt, offered]
      rw [ih _ (by simp; omega)]
      simp
    | take =>
      simp only [offered] at h
      simp only [boundedQueue, offered]
      rw [ih _ (by simp; omega)]

theorem boundedQueue_offers :
    ∀ (msgs : List Message) (q : Chan),
      boundedQueue (msgs.map QEvent.offer) q =
        { q with
          buf := q.buf ++ msgs.take (q.cap - q.buf.length)
          received := q.received ++ msgs.take (q.cap - q.buf.length) } := by
  intro msgs
  induction msgs with
  | nil => intro q; simp [boundedQueue]
  | cons m msgs ih =>
    intro q
    simp only [List.map_cons, boundedQueue]
    by_cases hlt : q.buf.length < q.cap
    · rw [if_pos hlt, ih]
      have : q.cap - q.buf.length = (q.cap - (q.buf.length + 1)) + 1 := by omega
      rw [this]
      simp
    · rw [if_neg hlt, ih]
      have : q.cap - q.buf.length = 0 := by omega
      rw [this]
      simp

theorem sinkEvents_inbound (msgs : List Message) :
    sinkEvents (msgs.map Event.inbound) = msgs.map QEvent.offer := by
  induction msgs with
  | nil => rfl
  | cons m msgs ih => simp [sinkEvents, ih]

theorem listenerEvents_inbound (i : Nat) (msgs : List Message) :
    listenerEvents i (msgs.map Event.inbound) = msgs.map QEvent.offer := by
  induction msgs with
  | nil => rfl
  | cons m msgs ih => simp [listenerEvents, ih]

theorem msgHandler_commands :
    ∀ (evs : List Event) (r : Routing),
      (msgHandler evs r).commands =
        r.commands ++ (inbounds evs).filter (fun m => r.t.commandChannel = m.Channel) := by
  intro evs
  induction evs with
  | nil => intro r; simp [msgHandler, inbounds]
  | cons ev evs ih =>
    intro r
    cases ev with
    | inbound m =>
      show (msgHandler evs (msgHandlerStep m r)).commands = _
      rw [ih]
      show (if r.t.commandChannel = m.Channel then r.commands ++ [m] else r.commands) ++
        (inbounds evs).filter (fun m => r.t.commandChannel = m.Channel) = _
      by_cases h : r.t.commandChannel = m.Channel
      · simp [inbounds, List.filter_cons, h]
      · simp [inbounds, List.filter_cons, h]
    | sinkTakes =>
      show (msgHandler evs { r with logCh := r.logCh.take }).commands = _
      rw [ih]
      rfl
    | listenerTakes j =>
      show (msgHandler evs
        { r with t := { r.t with listeners := takeAt j r.t.listeners } }).commands = _
      rw [ih]
      rfl

/-! ## Where `join` hosts a channel -/

theorem join_passes (e : Env) (fuel : Nat) (ch : String) (init : Bool) (t : TwitchLogger)
    (hp : PoolOK t.chats)
    (hpass : init = false ∨ (inSlice e t.channels ch = false ∧ e.urlOk ch = true ∧
      e.httpStatus t.existsLog.length = some 200)) :
    ∃ t0 id t1, Checked ch t t0 ∧ Acquired e.MaxChannelsPerChat t0 id t1 ∧
      join e (fuel + 4) ch init t = joinTail e ch init (attempts e id ch 7 t1) := by
  cases init with
  | false =>
    obtain ⟨id, t1, ha, hj⟩ := joinCore_eq e fuel ch false t hp
    exact ⟨t, id, t1, Or.inl rfl, ha, by rw [join_false]; exact hj⟩
  | true =>
    rcases hpass with h | ⟨hnot, hurl, hst⟩
    · cases h
    · have hp0 : PoolOK ({ t with existsLog := t.existsLog ++ [ch] } : TwitchLogger).chats := hp
      obtain ⟨id, t1, ha, hj⟩ := joinCore_eq e fuel ch true _ hp0
      refine ⟨_, id, t1, Or.inr rfl, ha, ?_⟩
      rw [← hj]
      simp [join, hnot, channelExists, hurl, hst]

theorem join_state (e : Env) (fuel : Nat) (ch : String) (init : Bool) (t : TwitchLogger)
    (hp : PoolOK t.chats) : ∃ t2, (join e (fuel + 4) ch init t).state? = some t2 := by
  rcases join_cases e fuel ch init t hp with
    ⟨_, _, hj⟩ | ⟨t0, _, _, hj | hj⟩ | ⟨t0, id, t1, _, _, _, _, hj⟩
  · exact ⟨_, by rw [hj]; rfl⟩
  · exact ⟨_, by rw [hj]; rfl⟩
  · exact ⟨_, by rw [hj]; rfl⟩
  · obtain ⟨t3, hret, _⟩ := joinTail_ret e ch init (attempts e id ch 7 t1)
    exact ⟨t3, by rw [hj, hret]; rfl⟩

theorem join_started (e : Env) (fuel : Nat) (ch : String) (init : Bool) {t t2 : TwitchLogger}
    (hi : PoolInv e.MaxChannelsPerChat t)
    (h : (join e (fuel + 4) ch init t).state? = some t2) :
    t2.started = t.started ∨
      (t2.started = t.started ++ [(t.chats.length + 1, t.chats)] ∧
        ∀ p ∈ t.chats, p.2.channels.length = e.MaxChannelsPerChat) := by
  rcases join_cases e fuel ch init t hi.1 with
    ⟨_, _, hj⟩ | ⟨t0, hck, _, hj | hj⟩ | ⟨t0, id, t1, hck, _, _, ha, hj⟩
  · rw [hj] at h
    cases h
    exact Or.inl rfl
  · rw [hj] at h
    cases h
    rcases hck with rfl | rfl <;> exact Or.inl rfl
  · rw [hj] at h
    cases h
    rcases hck with rfl | rfl <;> exact Or.inl rfl
  · obtain ⟨t3, hret, _, h3s, _, _⟩ := joinTail_ret e ch init (attempts e id ch 7 t1)
    rw [hj, hret] at h
    cases h
    have hfr := attempts_frame e id ch 7 t1
    have hst : t0.started = t.started := by rcases hck with rfl | rfl <;> rfl
    have hch : t0.chats = t.chats := by rcases hck with rfl | rfl <;> rfl
    rw [h3s, hfr.started]
    cases ha with
    | existing i c hc hroom hlow => exact Or.inl hst
    | fresh hfull =>
      right
      refine ⟨by rw [← hst, ← hch], ?_⟩
      intro p hpm
      exact Nat.le_antisymm (hi.2.1 p hpm) (hfull p (by rw [hch]; exact hpm))

theorem join_places (e : Env) (fuel : Nat) (ch : String) (init : Bool) {t : TwitchLogger}
    {i : Nat} {c : Twitch} (hp : PoolOK t.chats) (hc : t.chats.lookup i = some c)
    (hroom : c.channels.length < e.MaxChannelsPerChat)
    (hlow : ∀ p ∈ t.chats, p.1 < i → e.MaxChannelsPerChat ≤ p.2.channels.length) :
    ∃ t2 m, (join e (fuel + 4) ch init t).state? = some t2 ∧ t2.started = t.started ∧
      m ≤ 7 ∧ t2.joinLog = t.joinLog ++ joinCalls e i ch t.joinLog.length m ∧
      (join e (fuel + 4) ch init t = .ret none t2 →
        t2.chats = updateChat i (Twitch.add ch) t.chats) ∧
      ((init = false ∨ (inSlice e t.channels ch = false ∧ e.urlOk ch = true ∧
          e.httpStatus t.existsLog.length = some 200)) →
        1 ≤ m ∧
        ((∃ k, k < 7 ∧ e.joinErr (t.joinLog.length + k) = none) →
          join e (fuel + 4) ch init t = .ret none t2 ∧
          ∃ c2, t2.chats.lookup i = some c2 ∧ ch ∈ c2.channels)) := by
  have main : ∀ t0 id t1, Checked ch t t0 → Acquired e.MaxChannelsPerChat t0 id t1 →
      join e (fuel + 4) ch init t = joinTail e ch init (attempts e id ch 7 t1) →
      ∃ t2 m, (join e (fuel + 4) ch init t).state? = some t2 ∧ t2.started = t.started ∧
        m ≤ 7 ∧ t2.joinLog = t.joinLog ++ joinCalls e i ch t.joinLog.length m ∧
        (join e (fuel + 4) ch init t = .ret none t2 →
          t2.chats = updateChat i (Twitch.add ch) t.chats) ∧
        1 ≤ m ∧
        ((∃ k, k < 7 ∧ e.joinErr (t.joinLog.length + k) = none) →
          join e (fuel + 4) ch init t = .ret none t2 ∧
          ∃ c2, t2.chats.lookup i = some c2 ∧ ch ∈ c2.channels) := by
    intro t0 id t1 hck ha hj
    have hst : t0.started = t.started := by rcases hck with rfl | rfl <;> rfl
    obtain ⟨hid, ht1⟩ := ha.lowest (by rw [hck.joinLog.2.2.2]; exact hc) hroom
      (by rw [hck.joinLog.2.2.2]; exact hlow)
    subst hid ht1
    obtain ⟨m, hm, hlog, hfalse, htrue⟩ := attempts_log e id ch 7 t1
    obtain ⟨t3, hret, h3c, h3s, h3l, _⟩ := joinTail_ret e ch init (attempts e id ch 7 t1)
    have hfr := attempts_frame e id ch 7 t1
    have hchats := attempts_chats e id ch 7 t1
    rw [hck.joinLog.1] at hlog hfalse htrue
    refine ⟨t3, m, by rw [hj, hret]; rfl, by rw [h3s, hfr.started, hst], hm,
      by rw [h3l, hlog], ?_, ?_, ?_⟩
    · rw [hj, hret]
      intro h
      have hok : (attempts e id ch 7 t1).1 = true := by
        cases hb : (attempts e id ch 7 t1).1 with
        | true => rfl
        | false =>
          rw [hb] at h
          simp at h
      rw [h3c, hchats, if_pos hok, hck.joinLog.2.2.2]
    · cases hb : (attempts e id ch 7 t1).1 with
      | true =>
        obtain ⟨j, hj1, _⟩ := htrue hb
        omega
      | false =>
        have := (hfalse hb).1
        omega
    · rintro ⟨k, hk, hnone⟩
      have hok : (attempts e id ch 7 t1).1 = true := by
        cases hb : (attempts e id ch 7 t1).1 with
        | true => rfl
        | false => exact absurd hnone ((hfalse hb).2 k hk)
      refine ⟨by rw [hj, hret, if_pos hok], Twitch.add ch c, ?_, Twitch.mem_add.mpr (Or.inr rfl)⟩
      rw [h3c, hchats, if_pos hok, lookup_updateChat, if_pos rfl, hck.joinLog.2.2.2, hc]
      rfl
  by_cases hpass : init = false ∨ (inSlice e t.channels ch = false ∧ e.urlOk ch = true ∧
      e.httpStatus t.existsLog.length = some 200)
  · obtain ⟨t0, id, t1, hck, ha, hj⟩ := join_passes e fuel ch init t hp hpass
    obtain ⟨t2, m, h1, h2, h3, h4, h5, h6, h7⟩ := main t0 id t1 hck ha hj
    exact ⟨t2, m, h1, h2, h3, h4, h5, fun _ => ⟨h6, h7⟩⟩
  · rcases join_cases e fuel ch init t hp with
      ⟨_, _, hj⟩ | ⟨t0, hck, _, hj⟩ | ⟨t0, id, t1, hck, _, _, ha, hj⟩
    · refine ⟨t, 0, by rw [hj]; rfl, rfl, by omega, by simp [joinCalls], ?_,
        fun h => absurd h hpass⟩
      rw [hj]
      intro h
      cases h
    · have hst : t0.started = t.started := by rcases hck with rfl | rfl <;> rfl
      refine ⟨t0, 0, ?_, hst, by omega, by simp [joinCalls, hck.joinLog.1], ?_,
        fun h => absurd h hpass⟩
      · rcases hj with hj | hj <;> rw [hj] <;> rfl
      · intro h
        rcases hj with hj | hj <;> rw [hj] at h <;> cases h
    · obtain ⟨t2, m, h1, h2, h3, h4, h5, _, _⟩ := main t0 id t1 hck ha hj
      exact ⟨t2, m, h1, h2, h3, h4, h5, fun h => absurd h hpass⟩

/-! ## The claims -/

set_option maxRecDepth 100000

/-- C1, as the code has it: whatever the connection answers, `join` ends, it
calls `Join` at most 7 times, all on one handle and for the channel asked; it
returns the error "failed to join" exactly when it made 7 calls and all 7
failed; when one of the calls it made succeeded it returns no error. -/
theorem join_calls_at_most_seven (e : Env) (fuel : Nat) (ch : String) (init : Bool)
    (t : TwitchLogger) (hfuel : 4 ≤ fuel) :
    ∃ (t2 : TwitchLogger) (id m : Nat),
      (join e fuel ch init t).state? = some t2 ∧
      m ≤ 7 ∧ t2.joinLog = t.joinLog ++ joinCalls e id ch t.joinLog.length m ∧
      (join e fuel ch init t = .ret (some (.failedToJoin ch)) t2 ↔
        m = 7 ∧ ∀ k, k < 7 → e.joinErr (t.joinLog.length + k) ≠ none) ∧
      ((∃ k, k < m ∧ e.joinErr (t.joinLog.length + k) = none) →
        join e fuel ch init t = .ret none t2) := by
  obtain ⟨f, rfl⟩ : ∃ f, fuel = f + 4 := ⟨fuel - 4, by omega⟩
  rcases join_shape e f ch init t with
    ⟨t0, hck, hj⟩ | ⟨t0, id, t1, hck, h1, _, _, _, hj⟩
  · refine ⟨t0, 0, 0, ?_, by omega, by simp [joinCalls, hck.joinLog.1], ?_, ?_⟩
    · rcases hj with hj | hj | hj <;> rw [hj] <;> rfl
    · constructor
      · intro h
        rcases hj with hj | hj | hj <;> rw [hj] at h <;> cases h
      · intro h
        omega
    · rintro ⟨k, hk, _⟩
      omega
  · obtain ⟨m, hm, hlog, hf, ht⟩ := attempts_log e id ch 7 t1
    obtain ⟨t3, hret, _, _, hl3, _⟩ := joinTail_ret e ch init (attempts e id ch 7 t1)
    have hbase : t1.joinLog.length = t.joinLog.length := by rw [h1, hck.joinLog.1]
    rw [hbase] at hlog hf ht
    rw [h1, hck.joinLog.1] at hlog
    refine ⟨t3, id, m, by rw [hj, hret]; rfl, hm, by rw [hl3, hlog], ?_, ?_⟩
    · rw [hj, hret]
      cases hok : (attempts e id ch 7 t1).1 with
      | false =>
        simp only [Bool.false_eq_true, if_false, true_iff]
        exact hf hok
      | true =>
        simp only [if_true]
        constructor
        · intro h
          cases h
        · rintro ⟨h7, hall⟩
          obtain ⟨j, hj1, hj2, _⟩ := ht hok
          exact absurd hj2 (hall j (by omega))
    · rintro ⟨k, hk, hnone⟩
      rw [hj, hret]
      cases hok : (attempts e id ch 7 t1).1 with
      | false => exact absurd hnone ((hf hok).2 k (by omega))
      | true => rfl

/-- Witness of `join_calls_at_most_seven`: a join on the started logger. -/
theorem join_calls_at_most_seven_witness :
    4 ≤ 4 ∧ ∃ (t2 : TwitchLogger) (id m : Nat),
      (join (envThird 2) 4 "baz" true startedFooBar).state? = some t2 ∧
      m ≤ 7 ∧ t2.joinLog =
        startedFooBar.joinLog ++ joinCalls (envThird 2) id "baz" startedFooBar.joinLog.length m ∧
      (join (envThird 2) 4 "baz" true startedFooBar = .ret (some (.failedToJoin "baz")) t2 ↔
        m = 7 ∧ ∀ k, k < 7 → (envThird 2).joinErr (startedFooBar.joinLog.length + k) ≠ none) ∧
      ((∃ k, k < m ∧ (envThird 2).joinErr (startedFooBar.joinLog.length + k) = none) →
        join (envThird 2) 4 "baz" true startedFooBar = .ret none t2) :=
  ⟨by decide, join_calls_at_most_seven (envThird 2) 4 "baz" true startedFooBar (by decide)⟩

/-- C1 as stated fails: when the connection refuses every call, `join` makes 7
calls to `Join`, not 2; and when only the first two calls fail, `join` makes a
third call and returns no error. -/
theorem join_two_attempts_counterexample :
    (join (envRefuse 2) 4 "baz" false startedFooBar).state?.map (fun t => t.joinLog.length)
        = some (startedFooBar.joinLog.length + 7) ∧
      ((join (envThird 2) 4 "baz" false loggerFooBar).state?.map (fun t => t.joinLog))
        = some [(1, "baz", false), (1, "baz", false), (1, "baz", true)] ∧
      (∃ t, join (envThird 2) 4 "baz" false loggerFooBar = .ret none t) := by
  refine ⟨by decide, by decide, ?_⟩
  exact ⟨_, rfl⟩

/-- C2 fails on the code: for an authorized sender, the text `!join` or `!leave`
with no argument makes `runCommand` index `ld[1]` out of range, which panics. -/
theorem runCommand_missing_argument_panics :
    runCommand (envOk 2) 4 [1] 1 ⟨"admin", "ctl", "PRIVMSG", "!join"⟩ startedFooBar
        = .panic startedFooBar ∧
      runCommand (envOk 2) 4 [1] 1 ⟨"admin", "ctl", "PRIVMSG", "!leave"⟩ startedFooBar
        = .panic startedFooBar := by
  decide

/-- C3: when the sender is not an admin and the message type is not `MSG`,
`runCommand` returns at once: the logger state, which holds the roster, the
pool and the replies sent, is unchanged, whatever the text. -/
theorem runCommand_rejects_unauthorized (e : Env) (fuel : Nat) (order : List Nat)
    (chatID : Nat) (m : Message) (t : TwitchLogger)
    (hadmin : t.admins.contains m.Nick = false) (hcmd : m.Command ≠ "MSG") :
    runCommand e fuel order chatID m t = .ret () t := by
  have hb : (m.Command != "MSG") = true := by simpa using hcmd
  unfold runCommand
  rw [hadmin, hb]
  rfl

/-- Witness of `runCommand_rejects_unauthorized`: a stranger sends
`!join newchan` as an ordinary chat message. -/
theorem runCommand_rejects_unauthorized_witness :
    startedFooBar.admins.contains "mallory" = false ∧ ("PRIVMSG" : String) ≠ "MSG" ∧
      runCommand (envOk 2) 4 [1] 1 ⟨"mallory", "ctl", "PRIVMSG", "!join newchan"⟩ startedFooBar
        = .ret () startedFooBar :=
  ⟨by decide, by decide,
    runCommand_rejects_unauthorized (envOk 2) 4 [1] 1
      ⟨"mallory", "ctl", "PRIVMSG", "!join newchan"⟩ startedFooBar (by decide) (by decide)⟩

/-- C7: when the channel is already in the roster, up to case, `join(ch, true)`
returns `errAlreadyInChannel` and the logger state is unchanged: no existence
request, no handle started, no `Join` call, same roster, same pool. -/
theorem join_already_monitored (e : Env) (fuel : Nat) (ch : String) (t : TwitchLogger)
    (h : inSlice e t.channels ch = true) :
    join e fuel ch true t = .ret (some .errAlreadyInChannel) t := by
  simp [join, h]

/-- Witness of `join_already_monitored`: `FOO` when `foo` is in the roster. -/
theorem join_already_monitored_witness :
    inSlice (envOk 2) startedFooBar.channels "FOO" = true ∧
      join (envOk 2) 4 "FOO" true startedFooBar
        = .ret (some .errAlreadyInChannel) startedFooBar :=
  ⟨by decide, join_already_monitored (envOk 2) 4 "FOO" startedFooBar (by decide)⟩

/-- C4 as stated fails: with an empty pool no `Leave` call is made, `err` keeps
its initial value nil, and `leave` takes the channel off the roster and
returns no error; and when the roster is not sorted, a `leave` that fails still
sorts it while writing the file. -/
theorem leave_empty_pool_counterexample :
    leave (envRefuse 2) [] "foo" loggerFooBar
        = (none, { loggerFooBar with channels := ["bar"], file := ["bar"], createLog := [true] }) ∧
      ((leave (envRefuse 2) [1] "b"
          { startedFooBar with channels := ["b", "a"] }).1 = some (.external "refused") ∧
        (leave (envRefuse 2) [1] "b"
          { startedFooBar with channels := ["b", "a"] }).2.channels = ["a", "b"]) := by
  decide

/-- C4, as the code has it: for a channel of the roster and a pool that is not
empty, ranged over in any order, `leave` calls `Leave` at least once.  When
every one of these calls fails, `leave` returns the failure of the last call,
leaves the pool as it was, and the roster keeps its entries (it is the same
list, or that list sorted by the write to the file).  When `leave` returns no
error, one of the `Leave` calls succeeded and the roster is the former one
without its first entry equal to the channel up to case, up to order. -/
theorem leave_reports_failure (e : Env) (order : List Nat) (ch : String) (t : TwitchLogger)
    (hin : inSlice e t.channels ch = true) (hne : t.chats ≠ [])
    (hord : order.Perm (t.chats.map Prod.fst)) :
    ∃ calls : List (Nat × String × Bool), calls ≠ [] ∧
      (leave e order ch t).2.leaveLog = t.leaveLog ++ calls ∧
      ((∀ p ∈ calls, p.2.2 = false) →
        (∃ msg, e.leaveErr (t.leaveLog.length + calls.length - 1) = some msg ∧
          (leave e order ch t).1 = some (.external msg)) ∧
        ((leave e order ch t).2.channels = t.channels ∨
          (leave e order ch t).2.channels = sortStrings t.channels) ∧
        (leave e order ch t).2.chats = t.chats) ∧
      ((leave e order ch t).1 = none →
        (∃ p ∈ calls, p.2.2 = true) ∧
        ∃ rest, removeFirst e t.channels ch = some rest ∧
          (leave e order ch t).2.channels.Perm rest) := by
  obtain ⟨calls, h1, h2, h3, h4, h5⟩ := leaveLoop_spec e ch order none t
  obtain ⟨i, hi, hvis⟩ := order_visits hne hord
  have hcalls : calls ≠ [] := by
    intro hc
    have hall : ∀ p ∈ calls, p.2.2 = false := by
      rw [hc]; intro p hp; cases hp
    exact hvis (((h4 hall).2.1 hc).2 i hi)
  have hleave : leave e order ch t =
      ((leaveLoop e ch order none t).1,
        (saveChannels e (if (leaveLoop e ch order none t).1 = none
          then (removeChannel e ch (leaveLoop e ch order none t).2).2
          else (leaveLoop e ch order none t).2)).2) := by
    simp [leave, hin]
  rw [hleave]
  refine ⟨calls, hcalls, ?_, ?_, ?_⟩
  · rw [(saveChannels_chats e _).2.2.2]
    split
    · unfold removeChannel
      split <;> exact h1
    · exact h1
  · intro hall
    obtain ⟨h6, _, h8⟩ := h4 hall
    obtain ⟨msg, h9, h10⟩ := h8 hcalls
    have hsome : ¬ (leaveLoop e ch order none t).1 = none := by rw [h10]; simp
    simp only [if_neg hsome]
    refine ⟨⟨msg, h9, h10⟩, ?_, ?_⟩
    · rw [← h2]
      exact saveChannels_channels e _
    · rw [(saveChannels_chats e _).1, h6]
  · intro hnone
    simp only at hnone
    have htrue : ∃ p ∈ calls, p.2.2 = true := by
      by_contra hno
      have hall : ∀ p ∈ calls, p.2.2 = false := by
        intro p hp
        cases hb : p.2.2 with
        | false => rfl
        | true => exact absurd ⟨p, hp, hb⟩ hno
      obtain ⟨msg, _, h10⟩ := (h4 hall).2.2 hcalls
      rw [h10] at hnone
      cases hnone
    refine ⟨htrue, ?_⟩
    obtain ⟨rest, hrest⟩ := removeFirst_of_inSlice e t.channels ch hin
    refine ⟨rest, hrest, ?_⟩
    simp only [if_pos hnone]
    refine (saveChannels_perm e _).trans ?_
    unfold removeChannel
    rw [h2, hrest]

/-- Witness of `leave_reports_failure`: leaving `foo` on the started logger
while the connection refuses. -/
theorem leave_reports_failure_witness :
    inSlice (envRefuse 2) startedFooBar.channels "foo" = true ∧ startedFooBar.chats ≠ [] ∧
    ∃ calls : List (Nat × String × Bool), calls ≠ [] ∧
      (leave (envRefuse 2) [1] "foo" startedFooBar).2.leaveLog
        = startedFooBar.leaveLog ++ calls ∧
      ((∀ p ∈ calls, p.2.2 = false) →
        (∃ msg, (envRefuse 2).leaveErr (startedFooBar.leaveLog.length + calls.length - 1)
            = some msg ∧
          (leave (envRefuse 2) [1] "foo" startedFooBar).1 = some (.external msg)) ∧
        ((leave (envRefuse 2) [1] "foo" startedFooBar).2.channels = startedFooBar.channels ∨
          (leave (envRefuse 2) [1] "foo" startedFooBar).2.channels
            = sortStrings startedFooBar.channels) ∧
        (leave (envRefuse 2) [1] "foo" startedFooBar).2.chats = startedFooBar.chats) ∧
      ((leave (envRefuse 2) [1] "foo" startedFooBar).1 = none →
        (∃ p ∈ calls, p.2.2 = true) ∧
        ∃ rest, removeFirst (envRefuse 2) startedFooBar.channels "foo" = some rest ∧
          (leave (envRefuse 2) [1] "foo" startedFooBar).2.channels.Perm rest) :=
  ⟨by decide, by decide,
    leave_reports_failure (envRefuse 2) [1] "foo" startedFooBar (by decide) (by decide)
      (by decide)⟩

/-- C6 as stated fails: when `os.Create` fails, `join("baz", true)` on a roster
without `baz`, the existence request answered 200 and the first `Join`
succeeding, returns no error and puts `baz` in the roster, yet the roster file
is left as it was, without `baz`; and when the write to the file fails the
file holds nothing. -/
theorem join_create_fails_counterexample :
    inSlice (envNoCreate 2) startedFooBar.channels "baz" = false ∧
      (envNoCreate 2).urlOk "baz" = true ∧
      (envNoCreate 2).httpStatus startedFooBar.existsLog.length = some 200 ∧
      (envNoCreate 2).joinErr startedFooBar.joinLog.length = none ∧
      (∃ t2, join (envNoCreate 2) 4 "baz" true startedFooBar = .ret none t2 ∧
        "baz" ∈ t2.channels ∧ (∃ p ∈ t2.chats, "baz" ∈ p.2.channels) ∧
        t2.file = ["foo", "bar"] ∧ "baz" ∉ t2.file) ∧
      (∃ t2, join (envNoWrite 2) 4 "baz" true startedFooBar = .ret none t2 ∧
        "baz" ∈ t2.channels ∧ t2.file = [] ∧ "baz" ∉ t2.file) := by
  refine ⟨by decide, rfl, rfl, rfl, ⟨_, rfl, ?_⟩, ⟨_, rfl, ?_⟩⟩
  · decide
  · decide

/-- C6, as the code has it: for a pool whose handles are numbered from 1 and a
channel that is not in the roster, up to case, when the existence request is
answered with status 200 and one of the `Join` calls that `join` makes
succeeds, `join(ch, true)` returns no error; afterwards the channel is in the
roster and in the channels joined on some handle.  The file holds the roster,
the channel included, when `os.Create` and the write both succeed; when
`os.Create` fails the file is as it was before; when the write fails the file
holds nothing. -/
theorem join_adds_channel (e : Env) (fuel : Nat) (ch : String) (t : TwitchLogger)
    (hfuel : 4 ≤ fuel) (hp : PoolOK t.chats) (hnot : inSlice e t.channels ch = false)
    (hurl : e.urlOk ch = true) (hst : e.httpStatus t.existsLog.length = some 200)
    (hjoin : ∃ k, k < 7 ∧ e.joinErr (t.joinLog.length + k) = none) :
    ∃ t2, join e fuel ch true t = .ret none t2 ∧ ch ∈ t2.channels ∧
      t2.channels.Perm (t.channels ++ [ch]) ∧
      (∃ p ∈ t2.chats, ch ∈ p.2.channels) ∧
      (e.createErr t.createLog.length = none → e.writeErr t.createLog.length = none →
        t2.file = t2.channels ∧ ch ∈ t2.file) ∧
      (e.createErr t.createLog.length ≠ none → t2.file = t.file) ∧
      (e.createErr t.createLog.length = none → e.writeErr t.createLog.length ≠ none →
        t2.file = []) := by
  obtain ⟨f, rfl⟩ : ∃ f, fuel = f + 4 := ⟨fuel - 4, by omega⟩
  have hj : join e (f + 4) ch true t =
      joinCore e (f + 4) ch true { t with existsLog := t.existsLog ++ [ch] } := by
    simp [join, hnot, channelExists, hurl, hst]
  have hp0 : PoolOK ({ t with existsLog := t.existsLog ++ [ch] } : TwitchLogger).chats := hp
  obtain ⟨id, t1, ha, hcore⟩ := joinCore_eq e f ch true _ hp0
  obtain ⟨c, hc⟩ := ha.handle hp0
  obtain ⟨hf1, hf2, hf3, hf4, _⟩ := ha.frame
  obtain ⟨m, hm, hlog, hfalse, _⟩ := attempts_log e id ch 7 t1
  have hfr := attempts_frame e id ch 7 t1
  have hch := attempts_chats e id ch 7 t1
  have hok : (attempts e id ch 7 t1).1 = true := by
    cases hb : (attempts e id ch 7 t1).1 with
    | true => rfl
    | false =>
      obtain ⟨k, hk, hnone⟩ := hjoin
      have := (hfalse hb).2 k hk
      rw [hf2] at this
      exact absurd hnone this
  rw [if_pos hok] at hch
  have hroster : (addChannel ch (attempts e id ch 7 t1).2).channels = t.channels ++ [ch] := by
    show (attempts e id ch 7 t1).2.channels ++ [ch] = _
    rw [hfr.channels, hf1]
  have hmem : ch ∈ (addChannel ch (attempts e id ch 7 t1).2).channels := by
    simp [addChannel]
  have hidx : (addChannel ch (attempts e id ch 7 t1).2).createLog.length
      = t.createLog.length := by
    show (attempts e id ch 7 t1).2.createLog.length = _
    rw [hfr.createLog, hf4]
  have hfile : (addChannel ch (attempts e id ch 7 t1).2).file = t.file := by
    show (attempts e id ch 7 t1).2.file = _
    rw [hfr.file, hf3]
  refine ⟨(saveChannels e (addChannel ch (attempts e id ch 7 t1).2)).2, ?_, ?_, ?_, ?_, ?_, ?_, ?_⟩
  · rw [hj, hcore]
    simp [joinTail, hok]
  · exact (saveChannels_perm e _).mem_iff.mpr hmem
  · rw [← hroster]
    exact saveChannels_perm e _
  · rw [(saveChannels_chats e _).1]
    refine ⟨(id, Twitch.add ch c), ?_, Twitch.mem_add.mpr (Or.inr rfl)⟩
    show (id, _) ∈ (attempts e id ch 7 t1).2.chats
    rw [hch]
    exact mem_updateChat.mpr ⟨c, lookup_mem hc, by simp⟩
  · intro hcreate hwrite
    have hsave : (saveChannels e (addChannel ch (attempts e id ch 7 t1).2)).2.file
          = sortStrings (addChannel ch (attempts e id ch 7 t1).2).channels ∧
        (saveChannels e (addChannel ch (attempts e id ch 7 t1).2)).2.channels
          = sortStrings (addChannel ch (attempts e id ch 7 t1).2).channels := by
      unfold saveChannels
      rw [hidx, hcreate, hwrite]
      exact ⟨rfl, rfl⟩
    refine ⟨by rw [hsave.1, hsave.2], ?_⟩
    rw [hsave.1]
    exact (sortStrings_perm _).mem_iff.mpr hmem
  · intro hcreate
    cases hce : e.createErr t.createLog.length with
    | none => exact absurd hce hcreate
    | some msg =>
      unfold saveChannels
      rw [hidx, hce]
      exact hfile
  · intro hcreate hwrite
    cases hwe : e.writeErr t.createLog.length with
    | none => exact absurd hwe hwrite
    | some msg =>
      unfold saveChannels
      rw [hidx, hcreate, hwe]

/-- Witness of `join_adds_channel`: joining `baz` on the started logger, the
first two `Join` calls of `join` being refused and the third accepted. -/
theorem join_adds_channel_witness :
    4 ≤ 4 ∧ PoolOK startedFooBar.chats ∧
    inSlice (envLate 2) startedFooBar.channels "baz" = false ∧
    (∃ k, k < 7 ∧ (envLate 2).joinErr (startedFooBar.joinLog.length + k) = none) ∧
    (envLate 2).joinErr startedFooBar.joinLog.length ≠ none ∧
    ∃ t2, join (envLate 2) 4 "baz" true startedFooBar = .ret none t2 ∧ "baz" ∈ t2.channels ∧
      t2.channels.Perm (startedFooBar.channels ++ ["baz"]) ∧
      (∃ p ∈ t2.chats, "baz" ∈ p.2.channels) ∧
      ((envLate 2).createErr startedFooBar.createLog.length = none →
        (envLate 2).writeErr startedFooBar.createLog.length = none →
        t2.file = t2.channels ∧ "baz" ∈ t2.file) ∧
      ((envLate 2).createErr startedFooBar.createLog.length ≠ none →
        t2.file = startedFooBar.file) ∧
      ((envLate 2).createErr startedFooBar.createLog.length = none →
        (envLate 2).writeErr startedFooBar.createLog.length ≠ none → t2.file = []) :=
  ⟨by decide, by decide, by decide, ⟨2, by decide, rfl⟩, by decide,
    join_adds_channel (envLate 2) 4 "baz" startedFooBar (by decide) (by decide) (by decide)
      rfl rfl ⟨2, by decide, rfl⟩⟩

/-- C10: when no two entries of the roster are equal up to case, this still
holds after `join(ch, init)`, which always ends, whether it returns an error,
returns none or panics, and after `leave(ch)`, whether it fails or not. -/
theorem roster_stays_duplicate_free (e : Env) (fuel : Nat) (order : List Nat)
    (ch gone : String) (init : Bool) (t : TwitchLogger) (hfuel : 4 ≤ fuel)
    (h : NoDupFold e t.channels) :
    (∃ t2, (join e fuel ch init t).state? = some t2 ∧ NoDupFold e t2.channels) ∧
      NoDupFold e (leave e order gone t).2.channels := by
  obtain ⟨f, rfl⟩ : ∃ f, fuel = f + 4 := ⟨fuel - 4, by omega⟩
  constructor
  · rcases join_shape e f ch init t with
      ⟨t0, hck, hj⟩ | ⟨t0, id, t1, hck, _, h2, _, hin, hj⟩
    · refine ⟨t0, ?_, by rw [hck.joinLog.2.1]; exact h⟩
      rcases hj with hj | hj | hj <;> rw [hj] <;> rfl
    · obtain ⟨t3, hret, _, _, _, hcase⟩ := joinTail_ret e ch init (attempts e id ch 7 t1)
      have hfr := attempts_frame e id ch 7 t1
      have hchan : (attempts e id ch 7 t1).2.channels = t.channels := by
        rw [hfr.channels, h2, hck.joinLog.2.1]
      refine ⟨t3, by rw [hj, hret]; rfl, ?_⟩
      rcases hcase with rfl | ⟨_, hinit, rfl⟩
      · rw [hchan]; exact h
      · refine NoDupFold.perm ?_ (saveChannels_perm e _)
        show NoDupFold e ((attempts e id ch 7 t1).2.channels ++ [ch])
        rw [hchan]
        exact h.concat (hin hinit)
  · unfold leave
    split
    · exact h
    · obtain ⟨calls, _, h2, _⟩ := leaveLoop_spec e gone order none t
      refine NoDupFold.perm ?_ (saveChannels_perm e _)
      split
      · unfold removeChannel
        cases hr : removeFirst e (leaveLoop e gone order none t).2.channels gone with
        | none => simp only []; rw [h2]; exact h
        | some rest =>
          simp only []
          rw [h2] at hr
          exact h.sublist (removeFirst_sublist e _ _ _ hr)
      · rw [h2]; exact h

/-- Witness of `roster_stays_duplicate_free`: on the started logger. -/
theorem roster_stays_duplicate_free_witness :
    4 ≤ 4 ∧ NoDupFold (envOk 2) startedFooBar.channels ∧
    (∃ t2, (join (envOk 2) 4 "baz" true startedFooBar).state? = some t2 ∧
        NoDupFold (envOk 2) t2.channels) ∧
      NoDupFold (envOk 2) (leave (envOk 2) [1] "foo" startedFooBar).2.channels :=
  ⟨by decide, by decide,
    roster_stays_duplicate_free (envOk 2) 4 [1] "baz" "foo" true startedFooBar (by decide)
      (by decide)⟩

/-- C5 as stated fails, the channels joined on a handle being a set: on the
roster file `a`, `a`, `b` with capacity 2 and every call succeeding, `Start`
counts two successful joins and starts handle 2 while handle 1 holds the one
channel `a`, not 2; `b` then goes to handle 1 and handle 2 stays empty. -/
theorem shard_fill_duplicate_roster_counterexample :
    Start (envOk 2) 4 (NewTwitchLogger ["admin"] "ctl" ["a", "a", "b"]) = .ret () startedDup ∧
      Reachable 2 ["a", "a", "b"] startedDup ∧
      startedDup.started = [(1, []), (2, [(1, { channels := ["a"] })])] ∧
      startedDup.chats = [(1, { channels := ["a", "b"] }), (2, { channels := [] })] ∧
      ¬ (∀ s ∈ startedDup.started, ∀ p ∈ s.2, p.2.channels.length = 2) := by
  refine ⟨by decide, ?_, by decide, by decide, by decide⟩
  exact Reachable.start (envOk 2) 4 ["admin"] "ctl" startedDup rfl (by decide) (by decide)

/-- C5, as the code has it, the channels joined on a handle being a set.  In
every state reached by `Start` on the logger built from a roster file,
followed by calls to `join`: no handle holds more than `MaxChannelsPerChat`
channels, and the pool holds the started handles only; when the roster file
has no entry twice, every handle was started, by `Start` or by `join`, while
each handle of the pool held exactly that many channels; whatever the roster
file, `join` ends and starts a handle only when each handle of the pool holds
exactly that many channels; when some handle has room, `join` starts no
handle and makes all its `Join` calls, at most 7, on the handle of lowest id
among those with room; when `join` gets past its checks it makes at least one
call, and when one of the 7 calls is accepted it returns no error and that
handle holds the channel.  `Start` always returns. -/
theorem shard_fill_invariant (max : Nat) (file : List String) (t : TwitchLogger)
    (hmax : 0 < max) (hr : Reachable max file t) :
    (∀ p ∈ t.chats, p.2.channels.length ≤ max) ∧
    t.started.map Prod.fst = t.chats.map Prod.fst ∧
    (file.Nodup → ∀ s ∈ t.started, ∀ p ∈ s.2, p.2.channels.length = max) ∧
    (∀ (e : Env) (fuel : Nat) (ch : String) (init : Bool),
      e.MaxChannelsPerChat = max → 4 ≤ fuel →
      ∃ t2, (join e fuel ch init t).state? = some t2 ∧
        (t2.started = t.started ∨
          (t2.started = t.started ++ [(t.chats.length + 1, t.chats)] ∧
            ∀ p ∈ t.chats, p.2.channels.length = max))) ∧
    (∀ (e : Env) (fuel : Nat) (ch : String) (init : Bool) (i : Nat) (c : Twitch),
      e.MaxChannelsPerChat = max → 4 ≤ fuel →
      t.chats.lookup i = some c → c.channels.length < max →
      (∀ p ∈ t.chats, p.1 < i → max ≤ p.2.channels.length) →
      ∃ t2 m, (join e fuel ch init t).state? = some t2 ∧ t2.started = t.started ∧
        m ≤ 7 ∧ t2.joinLog = t.joinLog ++ joinCalls e i ch t.joinLog.length m ∧
        (join e fuel ch init t = .ret none t2 →
          t2.chats = updateChat i (Twitch.add ch) t.chats) ∧
        ((init = false ∨ (inSlice e t.channels ch = false ∧ e.urlOk ch = true ∧
            e.httpStatus t.existsLog.length = some 200)) →
          1 ≤ m ∧
          ((∃ k, k < 7 ∧ e.joinErr (t.joinLog.length + k) = none) →
            join e fuel ch init t = .ret none t2 ∧
            ∃ c2, t2.chats.lookup i = some c2 ∧ ch ∈ c2.channels))) ∧
    (∀ (e : Env) (fuel : Nat) (admins : List String) (commandChannel : String)
      (file2 : List String), e.MaxChannelsPerChat = max → 4 ≤ fuel →
      ∃ t0, Start e fuel (NewTwitchLogger admins commandChannel file2) = .ret () t0) := by
  have hi := hr.pool hmax
  refine ⟨hi.2.1, hi.2.2, fun hnd => (hr.shardInv hmax hnd).2, ?_, ?_, ?_⟩
  · intro e fuel ch init he hfuel
    obtain ⟨f, rfl⟩ : ∃ f, fuel = f + 4 := ⟨fuel - 4, by omega⟩
    subst he
    obtain ⟨t2, h2⟩ := join_state e f ch init t hi.1
    exact ⟨t2, h2, join_started e f ch init hi h2⟩
  · intro e fuel ch init i c he hfuel hc hroom hlow
    obtain ⟨f, rfl⟩ : ∃ f, fuel = f + 4 := ⟨fuel - 4, by omega⟩
    subst he
    exact join_places e f ch init hi.1 hc hroom hlow
  · intro e fuel admins commandChannel file2 he hfuel
    obtain ⟨f, rfl⟩ : ∃ f, fuel = f + 4 := ⟨fuel - 4, by omega⟩
    subst he
    obtain ⟨t2, h2, _, _⟩ := Start_returns e f hmax admins commandChannel file2
    exact ⟨t2, h2⟩

/-- Witness of `shard_fill_invariant`: the logger started on `foo` and `bar`
with capacity 2, on which `baz` was then joined. -/
theorem shard_fill_invariant_witness :
    0 < 2 ∧ Reachable 2 ["foo", "bar"] joinedBaz ∧
    joinedBaz.chats = [(1, { channels := ["bar", "foo"] }), (2, { channels := ["baz"] })] ∧
    (∀ p ∈ joinedBaz.chats, p.2.channels.length ≤ 2) ∧
    joinedBaz.started.map Prod.fst = joinedBaz.chats.map Prod.fst ∧
    ((["foo", "bar"] : List String).Nodup →
      ∀ s ∈ joinedBaz.started, ∀ p ∈ s.2, p.2.channels.length = 2) :=
  have hr : Reachable 2 ["foo", "bar"] joinedBaz :=
    Reachable.join (envOk 2) 4 "baz" true startedFooBar joinedBaz none rfl (by decide)
      (Reachable.start (envOk 2) 4 ["admin"] "ctl" startedFooBar rfl (by decide) (by decide))
      (by decide)
  ⟨by decide, hr, by decide,
    (shard_fill_invariant 2 ["foo", "bar"] joinedBaz (by decide) hr).1,
    (shard_fill_invariant 2 ["foo", "bar"] joinedBaz (by decide) hr).2.1,
    (shard_fill_invariant 2 ["foo", "bar"] joinedBaz (by decide) hr).2.2.1⟩

/-- C8: when every `Join` succeeds and the capacity is at least 1, `Start` on
the logger built from a roster file joins the channels in sorted order, the
channel of rank `k` (from 0) on the handle `k / capacity + 1`, each with a
single call; the handles started are those numbered 1 to the number of
channels divided by the capacity, rounded up; and a roster without
duplicates has no channel joined twice. -/
theorem start_fills_in_order (e : Env) (fuel : Nat) (admins : List String)
    (commandChannel : String) (file : List String) (hfuel : 4 ≤ fuel)
    (hmax : 1 ≤ e.MaxChannelsPerChat) (hall : ∀ k, e.joinErr k = none)
    (hnodup : file.Nodup) :
    ∃ t, Start e fuel (NewTwitchLogger admins commandChannel file) = .ret () t ∧
      t.joinLog = (sortStrings file).enum.map
        (fun p => (p.1 / e.MaxChannelsPerChat + 1, p.2, true)) ∧
      t.chats.length = (file.length + e.MaxChannelsPerChat - 1) / e.MaxChannelsPerChat ∧
      t.started.map Prod.fst =
        List.range' 1 ((file.length + e.MaxChannelsPerChat - 1) / e.MaxChannelsPerChat) ∧
      (sortStrings file).Sorted (· ≤ ·) ∧ (sortStrings file).Perm file ∧
      (t.joinLog.map (fun c => c.2.1)).Nodup := by
  obtain ⟨f, rfl⟩ : ∃ f, fuel = f + 4 := ⟨fuel - 4, by omega⟩
  obtain ⟨t, h1, h2, h3, hi, _⟩ := startLoop_all e f hmax hall
    (NewTwitchLogger admins commandChannel file).channels [] 0 0
    (NewTwitchLogger admins commandChannel file) 0
    (newLogger_startInv _ admins commandChannel file)
    (by rw [newLogger_channels]; exact (sortStrings_perm file).nodup_iff.mpr hnodup)
    (fun _ _ h => by cases h) (by simp) (by omega) (fun _ => rfl)
  have hlen : (sortStrings file).length = file.length := (sortStrings_perm file).length_eq
  have hlog : t.joinLog = (sortStrings file).enum.map
      (fun p => (p.1 / e.MaxChannelsPerChat + 1, p.2, true)) := by
    rw [h2]
    simp [NewTwitchLogger, List.enum]
  have hlen2 : t.chats.length
      = (file.length + e.MaxChannelsPerChat - 1) / e.MaxChannelsPerChat := by
    rw [h3]
    show (0 + (sortStrings file).length + _ - 1) / _ = _
    rw [hlen, Nat.zero_add]
  refine ⟨t, h1, hlog, hlen2, ?_, sortStrings_sorted file, sortStrings_perm file, ?_⟩
  · rw [hi.1.2.2, hi.1.1, hlen2]
  · have : t.joinLog.map (fun c => c.2.1) = sortStrings file := by
      rw [hlog, List.map_map]
      have : ((fun c : Nat × String × Bool => c.2.1) ∘
          (fun p : Nat × String => (p.1 / e.MaxChannelsPerChat + 1, p.2, true)))
          = Prod.snd := rfl
      rw [this, List.enum_map_snd]
    rw [this]
    exact (sortStrings_perm file).nodup_iff.mpr hnodup

/-- Witness of `start_fills_in_order`: the roster `foo`, `bar` with capacity 2 is
joined as `bar` then `foo`, both on handle 1, and handle 2 is never started. -/
theorem start_fills_in_order_witness :
    4 ≤ 4 ∧ 1 ≤ (envOk 2).MaxChannelsPerChat ∧ (["foo", "bar"] : List String).Nodup ∧
    ∃ t, Start (envOk 2) 4 (NewTwitchLogger ["admin"] "ctl" ["foo", "bar"]) = .ret () t ∧
      t.joinLog = [(1, "bar", true), (1, "foo", true)] ∧
      t.chats.length = 1 ∧ t.started.map Prod.fst = [1] := by
  obtain ⟨t, h1, h2, h3, h4, _⟩ :=
    start_fills_in_order (envOk 2) 4 ["admin"] "ctl" ["foo", "bar"] (by decide) (by decide)
      (fun _ => rfl) (by decide)
  exact ⟨by decide, by decide, by decide, t, h1, by rw [h2]; decide, by rw [h3]; decide,
    by rw [h4]; decide⟩

/-- C9: the logging sink and the listeners being bounded queues, one round of
`msgHandler` puts the message at the end of each queue that has room and
leaves each full queue as it was, and a run of `msgHandler` is made of such
rounds.  Along any run, in which consumers may receive from the queues, the
sink queue and each listener behave as the bounded queue of the spec fed
with every message of the connection, whatever the other queues are: what a
queue holds depends on that queue alone; the messages it accepted are messages
of the connection in the order in which the connection produced them, all of
them when the queue has room for them; with no consumer receiving, the queue
takes the first messages up to its capacity and drops the others.  A command
is issued for each message of the control channel. -/
theorem msgHandler_routes (m : Message) (msgs : List Message) (evs : List Event)
    (r : Routing) (i : Nat) :
    ((msgHandlerStep m r).logCh =
      if r.logCh.buf.length < r.logCh.cap then
        { r.logCh with buf := r.logCh.buf ++ [m], received := r.logCh.received ++ [m] }
      else r.logCh) ∧
    ((msgHandlerStep m r).t.listeners[i]? =
      r.t.listeners[i]?.map (fun q =>
        if q.buf.length < q.cap then
          { q with buf := q.buf ++ [m], received := q.received ++ [m] }
        else q)) ∧
    (msgHandlerStep m r).t.listeners.length = r.t.listeners.length ∧
    (∀ r2 : Routing, r2.logCh = r.logCh →
      (msgHandler evs r2).logCh = (msgHandler evs r).logCh) ∧
    (∀ r2 : Routing, r2.t.listeners[i]? = r.t.listeners[i]? →
      (msgHandler evs r2).t.listeners[i]? = (msgHandler evs r).t.listeners[i]?) ∧
    (∃ acc, acc.Sublist (inbounds evs) ∧
      (msgHandler evs r).logCh.received = r.logCh.received ++ acc) ∧
    (∀ q, r.t.listeners[i]? = some q →
      ∃ q2 acc, (msgHandler evs r).t.listeners[i]? = some q2 ∧
        acc.Sublist (inbounds evs) ∧ q2.received = q.received ++ acc) ∧
    msgHandler (.inbound m :: evs) r = msgHandler evs (msgHandlerStep m r) ∧
    (msgHandler evs r).logCh = boundedQueue (sinkEvents evs) r.logCh ∧
    (msgHandler evs r).t.listeners[i]? =
      r.t.listeners[i]?.map (boundedQueue (listenerEvents i evs)) ∧
    (r.logCh.buf.length + (inbounds evs).length ≤ r.logCh.cap →
      (msgHandler evs r).logCh.received = r.logCh.received ++ inbounds evs) ∧
    (∀ q, r.t.listeners[i]? = some q → q.buf.length + (inbounds evs).length ≤ q.cap →
      ∃ q2, (msgHandler evs r).t.listeners[i]? = some q2 ∧
        q2.received = q.received ++ inbounds evs) ∧
    (msgHandler (msgs.map Event.inbound) r).logCh =
      { r.logCh with
        buf := r.logCh.buf ++ msgs.take (r.logCh.cap - r.logCh.buf.length)
        received := r.logCh.received ++ msgs.take (r.logCh.cap - r.logCh.buf.length) } ∧
    (msgHandler (msgs.map Event.inbound) r).t.listeners[i]? =
      r.t.listeners[i]?.map (fun q =>
        { q with
          buf := q.buf ++ msgs.take (q.cap - q.buf.length)
          received := q.received ++ msgs.take (q.cap - q.buf.length) }) ∧
    (msgHandler evs r).commands =
      r.commands ++ (inbounds evs).filter (fun x => r.t.commandChannel = x.Channel) := by
  refine ⟨rfl, ?_, ?_, fun r2 h => msgHandler_logCh_congr evs r r2 h,
    fun r2 h => msgHandler_listener_congr i evs r r2 h, msgHandler_logCh_order evs r,
    fun q h => msgHandler_listener_order i evs r q h, rfl,
    msgHandler_logCh_refines evs r, msgHandler_listener_refines i evs r, ?_, ?_, ?_, ?_,
    msgHandler_commands evs r⟩
  · show (sendAll m r.t.listeners)[i]? = _
    rw [sendAll_getElem?]
    rfl
  · exact sendAll_length m r.t.listeners
  · intro h
    rw [msgHandler_logCh_refines, boundedQueue_room _ _ (by rw [offered_sinkEvents]; exact h),
      offered_sinkEvents]
  · intro q hq h
    refine ⟨boundedQueue (listenerEvents i evs) q, ?_, ?_⟩
    · rw [msgHandler_listener_refines, hq]
      rfl
    · rw [boundedQueue_room _ _ (by rw [offered_listenerEvents]; exact h),
        offered_listenerEvents]
  · rw [msgHandler_logCh_refines, sinkEvents_inbound, boundedQueue_offers]
  · rw [msgHandler_listener_refines, listenerEvents_inbound]
    congr 1
    funext q
    exact boundedQueue_offers msgs q

/-- Witness of `msgHandler_routes`: along the sample run the sink, of capacity 2,
accepts the first two messages and drops the third; the first listener, full
at first, misses the first two messages and accepts the third once its
consumer has received; the second listener accepts the first two messages
all the same; one command is issued. -/
theorem msgHandler_routes_witness :
    (msgHandler eventsSample routingSample).logCh =
        boundedQueue (sinkEvents eventsSample) routingSample.logCh ∧
      (msgHandler eventsSample routingSample).logCh
        = ⟨2, [msgChat, msgControl], [msgChat, msgControl]⟩ ∧
      (msgHandler eventsSample routingSample).t.listeners
        = [⟨1, [msgChat], [msgControl, msgChat]⟩,
            ⟨2, [msgChat, msgControl], [msgChat, msgControl]⟩] ∧
      (msgHandler eventsSample routingSample).commands = [msgControl] :=
  ⟨(msgHandler_routes msgChat [] eventsSample routingSample 0).2.2.2.2.2.2.2.2.1,
    by decide, by decide, by decide⟩

end Overrustle
